import Mathlib

/-!
Verification of the Ithomiini occurrence-reconciliation pipeline.

The Python sources embedded here are `scripts/process_data.py` and
`scripts/gbif_download_api.py`. Strings are modelled as Lean `String`
(lists of characters), Python `None`/NaN cell values as `Option String`,
and numeric coordinate values as rationals produced by a decimal parser
that models Python `float()` on plain decimal notation. Character-class
operations (`upper`, `lower`, `title`, whitespace) are modelled on the
ASCII range, which is the range the pipeline's data and the regular
expressions in the source use.
-/

/-! ## ASCII character classes (models of Python's str/`re` classes) -/

/-- ASCII uppercase letter, the `[A-Z]` class of the source's regexes. -/
def isUpperAZ (c : Char) : Bool := 'A' ≤ c && c ≤ 'Z'

/-- ASCII lowercase letter, the `[a-z]` class of the source's regexes. -/
def isLowerAZ (c : Char) : Bool := 'a' ≤ c && c ≤ 'z'

/-- ASCII digit, the `\d` class of the source's regexes. -/
def isDigitC (c : Char) : Bool := '0' ≤ c && c ≤ '9'

/-- ASCII letter, the `[a-zA-Z]` class of the source's regexes. -/
def isAlphaC (c : Char) : Bool := isUpperAZ c || isLowerAZ c

/-- Python's `\s` class and `str.strip`/`str.split` whitespace, ASCII part:
space, tab, newline, carriage return, vertical tab, form feed. -/
def isPySpace (c : Char) : Bool :=
  c == ' ' || c == '\t' || c == '\n' || c == '\r' || c == '\x0b' || c == '\x0c'

/-- ASCII model of Python `str.lower` on one character. -/
def toLowerChar (c : Char) : Char :=
  if isUpperAZ c then Char.ofNat (c.toNat + 32) else c

/-- ASCII model of Python `str.upper` on one character. -/
def toUpperChar (c : Char) : Char :=
  if isLowerAZ c then Char.ofNat (c.toNat - 32) else c

/-! ## List-of-characters string operations -/

/-- Length of the maximal prefix of `l` whose characters satisfy `p`;
the length a greedy character-class `p*` match consumes. -/
def countWhile (p : Char → Bool) : List Char → Nat
  | [] => 0
  | c :: r => if p c then countWhile p r + 1 else 0

/-- Model of Python `str.strip()`: drop leading and trailing whitespace. -/
def pyStrip (l : List Char) : List Char :=
  ((l.dropWhile isPySpace).reverse.dropWhile isPySpace).reverse

/-- Is `w` a leading segment of `l`?  Models Python `str.startswith`. -/
def leadsWith : List Char → List Char → Bool
  | [], _ => true
  | _ :: _, [] => false
  | a :: as, b :: bs => a == b && leadsWith as bs

/-- Does `sub` occur contiguously in `l`?  Models Python's `in` on strings. -/
def containsSub : List Char → List Char → Bool
  | [], sub => sub.isEmpty
  | c :: r, sub => leadsWith sub (c :: r) || containsSub r sub

/-- Model of Python `str.title()` on ASCII: the first letter of every
maximal letter run is uppercased, the rest lowercased. `prev` records
whether the previous character was a letter. -/
def pyTitleAux (prev : Bool) : List Char → List Char
  | [] => []
  | c :: r =>
    if isAlphaC c then
      (if prev then toLowerChar c else toUpperChar c) :: pyTitleAux true r
    else c :: pyTitleAux false r

/-- Accumulator pass of `pySplit`: `acc` is the current word, reversed. -/
def splitAux : List Char → List Char → List (List Char)
  | [], acc => if acc.isEmpty then [] else [acc.reverse]
  | c :: r, acc =>
    if isPySpace c then
      if acc.isEmpty then splitAux r [] else acc.reverse :: splitAux r []
    else splitAux r (c :: acc)

/-- Model of Python `str.split()` with no argument: split on whitespace
runs, discarding empty words. -/
def pySplit (l : List Char) : List (List Char) := splitAux l []

/-- Model of `' '.join(words)`. -/
def joinWords : List (List Char) → List Char
  | [] => []
  | [w] => w
  | w :: ws => w ++ ' ' :: joinWords ws

/-! ## String-level wrappers -/

/-- Model of Python `str.lower()` (ASCII range). -/
def pyLowerS (s : String) : String := ⟨s.data.map toLowerChar⟩

/-- Model of Python `str.upper()` (ASCII range). -/
def pyUpperS (s : String) : String := ⟨s.data.map toUpperChar⟩

/-- Model of Python `str.strip()`. -/
def pyStripS (s : String) : String := ⟨pyStrip s.data⟩

/-- Model of Python `str.title()` (ASCII range). -/
def pyTitleS (s : String) : String := ⟨pyTitleAux false s.data⟩

/-- Model of Python's `in` operator on strings. -/
def containsSubS (s sub : String) : Bool := containsSub s.data sub.data

/-! ## Decimal parsing (model of Python `float()` / `pd.to_numeric`)

Python's `float` accepts more forms (exponents, `inf`, `nan`,
underscores); the pipeline's coordinate columns carry plain decimal
notation, which is what this model covers: optional surrounding
whitespace, an optional sign, and digits with an optional fractional
part. -/

/-- Numeric value of a digit string read most-significant first. -/
def natOfDigits (l : List Char) : Nat :=
  l.foldl (fun acc c => acc * 10 + (c.toNat - 48)) 0

/-- Model of Python `float(s)` on plain decimal notation, `none` when
`float` would raise `ValueError` (and hence `pd.to_numeric(...,
errors='coerce')` would produce NaN). -/
def pyFloat? (s : String) : Option ℚ :=
  let l := pyStrip s.data
  let sl : ℚ × List Char :=
    match l with
    | '-' :: t => (-1, t)
    | '+' :: t => (1, t)
    | _ => (1, l)
  let ip := sl.2.takeWhile isDigitC
  let rest := sl.2.drop ip.length
  match rest with
  | [] => if ip.isEmpty then none else some (sl.1 * (natOfDigits ip : ℚ))
  | '.' :: fr =>
    if fr.all isDigitC && !(ip.isEmpty && fr.isEmpty) then
      some (sl.1 * ((natOfDigits ip : ℚ) + (natOfDigits fr : ℚ) / ((10 : ℚ) ^ fr.length)))
    else none
  | _ => none

/-! ## NameParser: `clean_scientific_name` (gbif_download_api.py lines 336-361)

The three author-citation regexes are deterministic on their character
classes (no class contains a digit, a comma or a closing parenthesis, so
greedy matching never needs backtracking); each is embedded as a matcher
returning the length of the match starting at the head of the list, and
`re.sub` as a left-to-right non-overlapping scan. -/

/-- The `[a-zA-Z&\s\.\-]` class of the author-citation regexes. -/
def isAuthChar (c : Char) : Bool :=
  isAlphaC c || c == '&' || isPySpace c || c == '.' || c == '-'

/-- Python `$` with no MULTILINE: end of string, or just before one final
newline. -/
def atLineEnd (l : List Char) : Bool :=
  l.isEmpty || l == ['\n']

/-- Match of `\s*\([A-Z][a-zA-Z&\s\.\-]+,?\s*\d{4}\)` at the head of `l`:
`some n` when the leftmost-anchored match consumes `n` characters. -/
def tryMatch1 (l : List Char) : Option Nat :=
  let a := countWhile isPySpace l
  match l.drop a with
  | c1 :: r2 =>
    if c1 = '(' then
      match r2 with
      | u :: r3 =>
        if isUpperAZ u then
          let b := countWhile isAuthChar r3
          if b = 0 then none
          else
            let r4 := r3.drop b
            let cm : Nat := if r4.head? = some ',' then 1 else 0
            let r5 := r4.drop cm
            let d := countWhile isPySpace r5
            match r5.drop d with
            | d1 :: d2 :: d3 :: d4 :: c5 :: _ =>
              if isDigitC d1 && isDigitC d2 && isDigitC d3 && isDigitC d4 && c5 = ')' then
                some (a + b + cm + d + 7)
              else none
            | _ => none
        else none
      | _ => none
    else none
  | _ => none

/-- Match of `\s+[A-Z][a-zA-Z&\s\.\-]+,\s*\d{4}$` at the head of `l`. -/
def tryMatch2 (l : List Char) : Option Nat :=
  let a := countWhile isPySpace l
  if a = 0 then none
  else
    match l.drop a with
    | u :: r2 =>
      if isUpperAZ u then
        let b := countWhile isAuthChar r2
        if b = 0 then none
        else
          match r2.drop b with
          | c :: r4 =>
            if c = ',' then
              let d := countWhile isPySpace r4
              match r4.drop d with
              | d1 :: d2 :: d3 :: d4 :: rest =>
                if isDigitC d1 && isDigitC d2 && isDigitC d3 && isDigitC d4 && atLineEnd rest then
                  some (a + b + d + 6)
                else none
              | _ => none
            else none
          | _ => none
      else none
    | _ => none

/-- Match of `\s+[A-Z][a-zA-Z]+\s+\d{4}$` at the head of `l`. -/
def tryMatch3 (l : List Char) : Option Nat :=
  let a := countWhile isPySpace l
  if a = 0 then none
  else
    match l.drop a with
    | u :: r2 =>
      if isUpperAZ u then
        let b := countWhile isAlphaC r2
        if b = 0 then none
        else
          let d := countWhile isPySpace (r2.drop b)
          if d = 0 then none
          else
            match (r2.drop b).drop d with
            | d1 :: d2 :: d3 :: d4 :: rest =>
              if isDigitC d1 && isDigitC d2 && isDigitC d3 && isDigitC d4 && atLineEnd rest then
                some (a + b + d + 5)
              else none
            | _ => none
      else none
    | _ => none

/-- Fuel-indexed left-to-right scan of `re.sub(pattern, '', s)`: at each
position try the matcher; on a match of length `n ≥ 1` delete it and
continue after it, otherwise keep the character and move on. Fuel equal
to the list length always suffices because a match consumes at least one
character. -/
def scanSubFuel (f : List Char → Option Nat) : Nat → List Char → List Char
  | 0, l => l
  | _ + 1, [] => []
  | fuel + 1, c :: rest =>
    match f (c :: rest) with
    | some n => scanSubFuel f fuel (rest.drop (n - 1))
    | none => c :: scanSubFuel f fuel rest

/-- Model of `re.sub(pattern, '', s)` for a matcher `f` whose matches are
nonempty. -/
def scanSub (f : List Char → Option Nat) (l : List Char) : List Char :=
  scanSubFuel f l.length l

/-- The `"BOLD:"` prefix the source rejects. -/
def boldColon : List Char := ['B', 'O', 'L', 'D', ':']

/-- Match of `re.match(r'^[A-Z]{2,}\d+', s)` as a Bool: at least two
leading uppercase letters immediately followed by a digit. (Greedy
`[A-Z]{2,}` is deterministic here: the class contains no digit, so the
maximal uppercase run must be followed by a digit.) -/
def idCodeHit (l : List Char) : Bool :=
  let k := countWhile isUpperAZ l
  decide (2 ≤ k) &&
    (match l.drop k with
     | c :: _ => isDigitC c
     | [] => false)

/-- The source's final validation: at least two whitespace-separated
parts, the first starting with an uppercase and the second with a
lowercase letter. -/
def validParts : List (List Char) → Bool
  | (c1 :: _) :: (c2 :: _) :: _ => isUpperAZ c1 && isLowerAZ c2
  | _ => false

/-- Embedding of `clean_scientific_name` (gbif_download_api.py 336-361)
on a list of characters. -/
def cleanChars (l : List Char) : Option (List Char) :=
  if l.isEmpty then none
  else
    let n0 := pyStrip l
    if leadsWith boldColon n0 || idCodeHit n0 then none
    else
      let n1 := scanSub tryMatch1 n0
      let n2 := scanSub tryMatch2 n1
      let n3 := scanSub tryMatch3 n2
      let n4 := joinWords (pySplit n3)
      if validParts (pySplit n4) then some n4 else none

/-- `clean_scientific_name` of gbif_download_api.py: strip author
citations, reject identifiers and non-binomial names. -/
def clean_scientific_name (s : String) : Option String :=
  (cleanChars s.data).map fun l => ⟨l⟩

/-- The source applies `clean_scientific_name` to values that may be
Python `None` (a missing column): `if not name: return None` covers
both. -/
def clean_scientific_name_opt : Option String → Option String
  | none => none
  | some s => clean_scientific_name s

/-! ## MimicryLookupTable (process_data.py lines 57-132)

The Python dict keyed by `(scientific_name, subspecies_or_None)` is
embedded as an association list in which a key is inserted at most once
(`if key not in MIMICRY_LOOKUP`), so insertion order never overwrites. -/

/-- A key of the mimicry lookup: lowercased scientific name and
lowercased subspecies, `none` for the species-only fallback key. -/
abbrev MimKey := String × Option String

/-- The mimicry lookup table: keys to `(male_mimicry, female_mimicry)`. -/
abbrev MimTable := List (MimKey × (String × String))

/-- Dict membership/lookup on the association list. -/
def tableFind : MimTable → MimKey → Option (String × String)
  | [], _ => none
  | (k, v) :: t, key => if k = key then some v else tableFind t key

/-- The source's `if key not in MIMICRY_LOOKUP: MIMICRY_LOOKUP[key] = v`
(first-write-wins). -/
def insertIfAbsent (t : MimTable) (k : MimKey) (v : String × String) : MimTable :=
  match tableFind t k with
  | some _ => t
  | none => t ++ [(k, v)]

/-- One row of the Dore reference dataset as `build_mimicry_lookup`
reads it: `Genus`, `Species` as strings, `Sub.species`, `M.mimicry`,
`F.mimicry` as possibly-NaN cells (`none` models NaN). -/
structure DoreRow where
  genus : String
  species : String
  subspecies : Option String
  mMim : Option String
  fMim : Option String
deriving DecidableEq, Repr

/-- Embedding of `normalize_mimicry` (process_data.py 146-150): NaN and
the five listed literals map to `"Unknown"`; anything else to its
stripped Title-Case form. -/
def normalize_mimicry : Option String → String
  | none => "Unknown"
  | some v =>
    if v ∈ ["", "nan", "NAN", "Unknown", "UNKNOWN"] then "Unknown"
    else pyTitleS (pyStripS v)

/-- The subspecies cleaning step of `build_mimicry_lookup` (lines
76-80): NaN, or a value stripping to `'nan'`, `''` or `'None'`, becomes
`None`; otherwise the stripped value. -/
def cleanDoreSubspecies : Option String → Option String
  | none => none
  | some s => if pyStripS s ∈ ["nan", "", "None"] then none else some (pyStripS s)

/-- One iteration of `build_mimicry_lookup`'s loop (lines 70-95) on one
reference row. -/
def buildMimStep (t : MimTable) (row : DoreRow) : MimTable :=
  let sciName := pyStripS (row.genus ++ " " ++ row.species)
  let ssp := cleanDoreSubspecies row.subspecies
  let maleMim := normalize_mimicry row.mMim
  let femaleMim := normalize_mimicry row.fMim
  let t1 :=
    match ssp with
    | some s => insertIfAbsent t (pyLowerS sciName, some (pyLowerS s)) (maleMim, femaleMim)
    | none => t
  insertIfAbsent t1 (pyLowerS sciName, none) (maleMim, femaleMim)

/-- Embedding of `build_mimicry_lookup` (process_data.py 57-102),
starting from the empty table. -/
def build_mimicry_lookup (rows : List DoreRow) : MimTable :=
  rows.foldl buildMimStep []

/-- Embedding of `lookup_mimicry` (process_data.py 105-132). A `none`
or empty subspecies is falsy in `if subspecies:`, so the full-key probe
is skipped for it. -/
def lookup_mimicry (t : MimTable) (scientific_name : String) (subspecies : Option String) :
    String × String :=
  if scientific_name = "" then ("Unknown", "Unknown")
  else
    let sciNameLower := pyStripS (pyLowerS scientific_name)
    let full :=
      match subspecies with
      | some s => if s = "" then none else tableFind t (sciNameLower, some (pyStripS (pyLowerS s)))
      | none => none
    match full with
    | some v => v
    | none =>
      match tableFind t (sciNameLower, none) with
      | some v => v
      | none => ("Unknown", "Unknown")

/-! ## SequencingStatusClassifier (process_data.py lines 158-171)

The record fields arrive through `str(row.get(field, ''))`: a missing
field gives `''` and a NaN cell gives the string `'nan'`; `none` below
models a missing field. -/

/-- Embedding of `determine_sequencing_status`: the three-rule decision
list over the primary rack and tissue fields. -/
def determine_sequencing_status (rack1 tissue1 : Option String) : String :=
  let r := rack1.getD ""
  if !containsSubS r "Not in TOL" && decide (5 < r.length) then "Sequenced"
  else
    let t := tissue1.getD ""
    if !containsSubS t "NOT_COLLECTED" && !(t = "nan" || t = "") then "Tissue Available"
    else "Preserved Specimen"

/-- Modelled from the spec: the classifier as §4.4 words it, with the
rack length measured after trimming ("its trimmed length exceeds 5
characters"). Used only to exhibit where the spec and the source
diverge. -/
def determine_sequencing_status_spec (rack1 tissue1 : Option String) : String :=
  let r := rack1.getD ""
  if !containsSubS r "Not in TOL" && decide (5 < (pyStripS r).length) then "Sequenced"
  else
    let t := tissue1.getD ""
    if !containsSubS t "NOT_COLLECTED" && !(t = "nan" || t = "") then "Tissue Available"
    else "Preserved Specimen"

/-! ## FieldResolver: `get_collection_location` (gbif_download_api.py 456-465) -/

/-- The candidate test of `get_collection_location`'s loop body: `if
value and str(value).strip() and str(value).strip().lower() not in
['na', 'nan', 'none', '']: return str(value).strip()`. -/
def candidateValue : Option String → Option String
  | none => none
  | some v =>
    if v = "" then none
    else
      let t := pyStripS v
      if t = "" then none
      else if pyLowerS t ∈ ["na", "nan", "none", ""] then none
      else some t

/-- The `for field in [...]` loop of `get_collection_location`: first
candidate that passes wins. -/
def resolveFields : List (Option String) → Option String
  | [] => none
  | v :: rest =>
    match candidateValue v with
    | some t => some t
    | none => resolveFields rest

/-- A record restricted to the five location fields the resolver reads;
`none` models a missing field (`record.get(field)` returning `None`). -/
structure LocRecord where
  locality : Option String
  verbatimLocality : Option String
  municipality : Option String
  county : Option String
  stateProvince : Option String
deriving DecidableEq, Repr

/-- Embedding of `get_collection_location`: resolve in the fixed
priority order locality, verbatimLocality, municipality, county,
stateProvince. -/
def get_collection_location (r : LocRecord) : Option String :=
  resolveFields [r.locality, r.verbatimLocality, r.municipality, r.county, r.stateProvince]

/-- Modelled from the spec (§4.3): a candidate is absent when it is null
or its trimmed, case-folded value is one of "", "nan", "none", "na";
the resolver returns the first present candidate's trimmed value. Used
to state that the source's truthiness-based test agrees with it. -/
def absentCandSpec (v : Option String) : Bool :=
  match v with
  | none => true
  | some s => pyLowerS (pyStripS s) ∈ ["", "nan", "none", "na"]

/-- Modelled from the spec (§4.3): first-non-absent resolution. -/
def resolveFieldsSpec : List (Option String) → Option String
  | [] => none
  | v :: rest =>
    if absentCandSpec v then resolveFieldsSpec rest
    else some (pyStripS (v.getD ""))

/-! ## GBIF occurrence rows (gbif_download_api.py `process_occurrence_file`,
lines 468-562, restricted to the taxonomy and coordinate fields the
claims concern). `none` models a field `csv.DictReader` did not supply. -/

/-- The fields of one `occurrence.txt` row that determine inclusion,
taxonomy and coordinates. -/
structure GbifRow where
  decimalLatitude : Option String
  decimalLongitude : Option String
  genus : Option String
  specificEpithet : Option String
  infraspecificEpithet : Option String
  species : Option String
  scientificName : Option String
deriving DecidableEq, Repr

/-- The output record fields of `process_occurrence_file` the claims
concern. -/
structure GbifRec where
  scientific_name : String
  genus : String
  species : String
  subspecies : Option String
  lat : ℚ
  lng : ℚ
deriving DecidableEq, Repr

/-- Python `a or b` on two possibly-missing strings: the first truthy
value, else `b`'s value (used for `row.get('species') or
row.get('scientificName')`). -/
def pyFirstTruthy (a b : Option String) : Option String :=
  match a with
  | some s => if s = "" then b else some s
  | none => b

/-- The loop body of `process_occurrence_file` for one row: skip on
missing or unparseable coordinates, build the scientific name from
genus and epithet or from the cleaned name, clean the subspecies, and
emit the record. -/
def process_occurrence_row (row : GbifRow) : Option GbifRec :=
  let latS := row.decimalLatitude.getD ""
  let lngS := row.decimalLongitude.getD ""
  if latS = "" || lngS = "" then none
  else
    match pyFloat? latS, pyFloat? lngS with
    | some la, some ln =>
      let genus0 := row.genus.getD ""
      let epi0 := row.specificEpithet.getD ""
      let ssp0 : Option String :=
        match row.infraspecificEpithet with
        | some s => if s = "" then none else some s
        | none => none
      let named : Option (String × String × String) :=
        if genus0 ≠ "" && epi0 ≠ "" then some (genus0 ++ " " ++ epi0, genus0, epi0)
        else
          match clean_scientific_name_opt (pyFirstTruthy row.species row.scientificName) with
          | some sci =>
            let parts := pySplit sci.data
            let g1 : String := match parts with | p :: _ => ⟨p⟩ | [] => ""
            let e1 : String := match parts with | _ :: p :: _ => ⟨p⟩ | _ => ""
            some (sci, g1, e1)
          | none => none
      match named with
      | none => none
      | some (sci, g1, e1) =>
        let ssp1 : Option String :=
          match ssp0 with
          | none => none
          | some s0 =>
            let s1 := pyStripS s0
            if pyUpperS s1 ∈ ["ACCEPTED", "SYNONYM", "DOUBTFUL", "UNKNOWN", "NA", "NAN", ""] then
              none
            else some s1
        some { scientific_name := sci
               genus := if g1 = "" then "Unknown" else g1
               species := if e1 = "" then "sp." else e1
               subspecies := ssp1
               lat := la
               lng := ln }
    | _, _ => none

/-- Embedding of `process_occurrence_file`'s record loop over a list of
rows (the records list it accumulates, in order). -/
def process_occurrence_rows (rows : List GbifRow) : List GbifRec :=
  rows.filterMap process_occurrence_row

/-! ## Sanger batch (process_data.py `load_sanger_data`, lines 285-419,
restricted to the id and coordinate logic claim C9 concerns). -/

/-- The fields of one Collection_data row that determine the emitted id
and row inclusion. `none` models a NaN cell of the dtype=str frame. -/
structure SangerRow where
  camId : Option String
  camIdIns : Option String
  lat : Option String
  lng : Option String
deriving DecidableEq, Repr

/-- The id and coordinates of one emitted Sanger record. -/
structure SangerRec where
  id : String
  lat : ℚ
  lng : ℚ
deriving DecidableEq, Repr

/-- `df_col['CAM_ID'].fillna(df_col['CAM_ID_insectary'])`: the primary
id, with the insectary id filling NaN cells. -/
def sanger_target_id (r : SangerRow) : Option String :=
  match r.camId with
  | some v => some v
  | none => r.camIdIns

/-- Embedding of `clean_id` (process_data.py 139-143) on one cell:
`astype(str)` renders NaN as `'nan'`, then uppercase, strip, and
replacement of the exact values `'NAN'`, `'NONE'`, `'NA'` by `''`. -/
def clean_id (v : Option String) : String :=
  let s := pyStripS (pyUpperS (v.getD "nan"))
  if s = "NAN" ∨ s = "NONE" ∨ s = "NA" then "" else s

/-- One row of `load_sanger_data`'s id/coordinate logic: parse the
coordinates (`pd.to_numeric(..., errors='coerce')` then
`dropna(subset=['lat','lng'])`), and drop the row when the cleaned id
is empty (`result = result[result['id'] != '']`). -/
def sanger_process_row (r : SangerRow) : Option SangerRec :=
  let id := clean_id (sanger_target_id r)
  match r.lat.bind pyFloat?, r.lng.bind pyFloat? with
  | some la, some ln => if id = "" then none else some { id := id, lat := la, lng := ln }
  | _, _ => none

/-- The rows `load_sanger_data` emits (id and coordinates), in order. -/
def load_sanger_rows (rows : List SangerRow) : List SangerRec :=
  rows.filterMap sanger_process_row

/-! ## Dore batch coordinates (process_data.py `load_local_data`,
lines 218-219 and 259-267, restricted to the coordinate logic claim C4
concerns). -/

/-- The coordinate cells of one Dore Excel row as `load_local_data`
reads them (columns `Latitude` and `Longitude`); `none` models a NaN
cell of the frame. -/
structure LocalRow where
  latitude : Option String
  longitude : Option String
deriving DecidableEq, Repr

/-- The coordinate gate of `load_local_data` on one row:
`pd.to_numeric(..., errors='coerce')` parses each cell (NaN on failure
or on a missing cell), and `result.dropna(subset=['lat', 'lng'])` then
keeps the row exactly when both coordinates parsed. -/
def local_row_coords (r : LocalRow) : Option (ℚ × ℚ) :=
  match r.latitude.bind pyFloat?, r.longitude.bind pyFloat? with
  | some la, some ln => some (la, ln)
  | _, _ => none

/-- The coordinate pairs of the rows `load_local_data` keeps, in
order. -/
def load_local_coords (rows : List LocalRow) : List (ℚ × ℚ) :=
  rows.filterMap local_row_coords

/-! ## Final null-normalization (process_data.py `main`, lines 726-758) -/

/-- The optional fields of one canonical record that `main`'s final
cleaning pass normalizes. -/
structure CanonicalOpt where
  subspecies : Option String
  image_url : Option String
  collection_location : Option String
  observation_date : Option String
  observation_url : Option String
deriving DecidableEq, Repr

/-- One field of the final pass: `x if pd.notna(x) and x not in
['None', 'nan', ''] else None`. -/
def normalize_optional : Option String → Option String
  | none => none
  | some s => if s = "None" ∨ s = "nan" ∨ s = "" then none else some s

/-- The final null-normalization pass of `main` over the five optional
fields of a canonical record. -/
def finalize_record (r : CanonicalOpt) : CanonicalOpt :=
  { subspecies := normalize_optional r.subspecies
    image_url := normalize_optional r.image_url
    collection_location := normalize_optional r.collection_location
    observation_date := normalize_optional r.observation_date
    observation_url := normalize_optional r.observation_url }

/-- The optional fields of a canonical record, as a list. -/
def optionalFields (r : CanonicalOpt) : List (Option String) :=
  [r.subspecies, r.image_url, r.collection_location, r.observation_date, r.observation_url]

/-! ## Valid-input shapes for the NameParser claims

The spec's "valid `Genus species (Author, Year)` input" (§8): genus a
capitalized alphabetic word, epithet a lowercase alphabetic word, author
a citation word the parenthesized-citation regex accepts, year four
digits. -/

/-- A capitalized word: uppercase first letter, lowercase rest. -/
def upperLowerWordB : List Char → Bool
  | [] => false
  | c :: r => isUpperAZ c && r.all isLowerAZ

/-- A lowercase alphabetic word, nonempty. -/
def lowerWordB : List Char → Bool
  | [] => false
  | c :: r => isLowerAZ c && r.all isLowerAZ

/-- An author word as `\([A-Z][a-zA-Z&\s\.\-]+...` accepts it: an
uppercase letter then at least one more citation-class character. -/
def authorWordB : List Char → Bool
  | c :: d :: r => isUpperAZ c && isAuthChar d && r.all isAuthChar
  | _ => false

/-- A four-digit year. -/
def yearWordB : List Char → Bool
  | [y1, y2, y3, y4] => isDigitC y1 && isDigitC y2 && isDigitC y3 && isDigitC y4
  | _ => false

/-! ## Helper lemmas: character classes -/

theorem class_ne {p : Char → Bool} {c d : Char} (hc : p c = true) (hd : p d = false) : c ≠ d := by
  intro e
  subst e
  rw [hc] at hd
  exact Bool.noConfusion hd

theorem beq_false_of_class {p : Char → Bool} {c d : Char} (hc : p c = true)
    (hd : p d = false) : (c == d) = false := by
  cases h : c == d
  · rfl
  · exact absurd (eq_of_beq h) (class_ne hc hd)

theorem isPySpace_false_of_class {p : Char → Bool} {c : Char} (hc : p c = true)
    (h1 : p ' ' = false) (h2 : p '\t' = false) (h3 : p '\n' = false)
    (h4 : p '\r' = false) (h5 : p '\x0b' = false) (h6 : p '\x0c' = false) :
    isPySpace c = false := by
  unfold isPySpace
  rw [beq_false_of_class hc h1, beq_false_of_class hc h2, beq_false_of_class hc h3,
    beq_false_of_class hc h4, beq_false_of_class hc h5, beq_false_of_class hc h6]
  rfl

theorem alpha_not_space {c : Char} (h : isAlphaC c = true) : isPySpace c = false :=
  isPySpace_false_of_class h (by decide) (by decide) (by decide) (by decide) (by decide)
    (by decide)

theorem upper_alpha {c : Char} (h : isUpperAZ c = true) : isAlphaC c = true := by
  simp [isAlphaC, h]

theorem lower_alpha {c : Char} (h : isLowerAZ c = true) : isAlphaC c = true := by
  simp [isAlphaC, h]

theorem digit_not_space {c : Char} (h : isDigitC c = true) : isPySpace c = false :=
  isPySpace_false_of_class h (by decide) (by decide) (by decide) (by decide) (by decide)
    (by decide)

/-! ## Helper lemmas: countWhile -/

theorem countWhile_cons_pos {p : Char → Bool} {c : Char} (r : List Char) (h : p c = true) :
    countWhile p (c :: r) = countWhile p r + 1 := by
  simp [countWhile, h]

theorem countWhile_cons_neg {p : Char → Bool} {c : Char} (r : List Char) (h : p c = false) :
    countWhile p (c :: r) = 0 := by
  simp [countWhile, h]

theorem countWhile_le (p : Char → Bool) (l : List Char) : countWhile p l ≤ l.length := by
  induction l with
  | nil => simp [countWhile]
  | cons c r ih =>
    cases h : p c
    · simp [countWhile, h]
    · simp [countWhile, h]
      omega

theorem countWhile_append_stop {p : Char → Bool} {xs : List Char} {y : Char}
    (t : List Char) (hxs : ∀ c ∈ xs, p c = true) (hy : p y = false) :
    countWhile p (xs ++ y :: t) = xs.length := by
  induction xs with
  | nil => simpa [countWhile] using hy
  | cons c r ih =>
    have hc : p c = true := hxs c (by simp)
    simp [countWhile, hc, ih (fun x hx => hxs x (by simp [hx]))]

/-! ## Helper lemmas: the re.sub scan -/

theorem scanSubFuel_of_le (f : List Char → Option Nat) :
    ∀ (n : Nat) (l : List Char), l.length ≤ n → ∀ fuel, l.length ≤ fuel →
    scanSubFuel f fuel l = scanSubFuel f l.length l := by
  intro n
  induction n with
  | zero =>
    intro l hl fuel _
    have : l = [] := List.eq_nil_of_length_eq_zero (Nat.le_zero.mp hl)
    subst this
    cases fuel <;> rfl
  | succ n ih =>
    intro l hl fuel hf
    cases l with
    | nil => cases fuel <;> rfl
    | cons c rest =>
      cases fuel with
      | zero => simp at hf
      | succ m =>
        have hrest : rest.length ≤ n := by simpa using hl
        have hrm : rest.length ≤ m := by simpa using hf
        show scanSubFuel f (m + 1) (c :: rest) = scanSubFuel f (rest.length + 1) (c :: rest)
        simp only [scanSubFuel]
        cases hfc : f (c :: rest) with
        | none =>
          dsimp only
          rw [ih rest hrest m hrm, ih rest hrest rest.length (le_refl _)]
        | some nn =>
          dsimp only
          have hdl : (rest.drop (nn - 1)).length ≤ rest.length := by
            simp [List.length_drop]
          rw [ih _ (le_trans hdl hrest) m (le_trans hdl hrm),
            ih _ (le_trans hdl hrest) rest.length hdl]

theorem scanSub_nil (f : List Char → Option Nat) : scanSub f [] = [] := rfl

theorem scanSub_cons_none {f : List Char → Option Nat} {c : Char} {r : List Char}
    (h : f (c :: r) = none) : scanSub f (c :: r) = c :: scanSub f r := by
  unfold scanSub
  show scanSubFuel f (r.length + 1) (c :: r) = _
  simp only [scanSubFuel, h]

theorem scanSub_cons_some {f : List Char → Option Nat} {c : Char} {r : List Char} {n : Nat}
    (h : f (c :: r) = some n) : scanSub f (c :: r) = scanSub f (r.drop (n - 1)) := by
  unfold scanSub
  show scanSubFuel f (r.length + 1) (c :: r) = _
  simp only [scanSubFuel, h]
  exact scanSubFuel_of_le f r.length _ (by simp [List.length_drop]) r.length
    (by simp [List.length_drop])

theorem scanSub_of_all {f : List Char → Option Nat} {p : Char → Prop}
    (hf : ∀ c r, (∀ x ∈ c :: r, p x) → f (c :: r) = none) :
    ∀ l, (∀ x ∈ l, p x) → scanSub f l = l := by
  intro l
  induction l with
  | nil => intro _; rfl
  | cons c r ih =>
    intro h
    rw [scanSub_cons_none (hf c r h), ih (fun x hx => h x (by simp [hx]))]
theorem tryMatch1_mem_paren {l : List Char} {n : Nat} (h : tryMatch1 l = some n) : '(' ∈ l := by
  simp only [tryMatch1] at h
  split at h
  next c1 r2 hd =>
    split at h
    next hc =>
      subst hc
      have h1 : '(' ∈ l.drop (countWhile isPySpace l) := by rw [hd]; simp
      exact (List.drop_sublist _ _).subset h1
    next => simp at h
  next => simp at h

theorem tryMatch2_mem_comma {l : List Char} {n : Nat} (h : tryMatch2 l = some n) : ',' ∈ l := by
  simp only [tryMatch2] at h
  split at h
  · simp at h
  split at h
  next u r2 hd =>
    split at h
    · split at h
      · simp at h
      split at h
      next c r4 hbd =>
        split at h
        next hc =>
          subst hc
          have h1 : ',' ∈ r2.drop (countWhile isAuthChar r2) := by rw [hbd]; simp
          have h2 : ',' ∈ (u :: r2) := by
            simp [(List.drop_sublist _ _).subset h1]
          have h3 : ',' ∈ l.drop (countWhile isPySpace l) := by rw [hd]; exact h2
          exact (List.drop_sublist _ _).subset h3
        next => simp at h
      next => simp at h
    · simp at h
  next => simp at h

theorem tryMatch3_mem_digit {l : List Char} {n : Nat} (h : tryMatch3 l = some n) :
    ∃ c ∈ l, isDigitC c = true := by
  simp only [tryMatch3] at h
  split at h
  · simp at h
  split at h
  next u r2 hd =>
    split at h
    · split at h
      · simp at h
      split at h
      · simp at h
      split at h
      next d1 d2 d3 d4 rest hdd =>
        split at h
        next hdig =>
          have hd1 : isDigitC d1 = true := by
            rcases Bool.and_eq_true_iff.mp hdig with ⟨h5, _⟩
            rcases Bool.and_eq_true_iff.mp h5 with ⟨h6, _⟩
            rcases Bool.and_eq_true_iff.mp h6 with ⟨h7, _⟩
            exact (Bool.and_eq_true_iff.mp h7).1
          refine ⟨d1, ?_, hd1⟩
          have h1 : d1 ∈ ((r2.drop (countWhile isAlphaC r2)).drop
              (countWhile isPySpace (r2.drop (countWhile isAlphaC r2)))) := by
            rw [hdd]; simp
          have h2 : d1 ∈ r2 :=
            (List.drop_sublist _ _).subset ((List.drop_sublist _ _).subset h1)
          have h3 : d1 ∈ l.drop (countWhile isPySpace l) := by rw [hd]; simp [h2]
          exact (List.drop_sublist _ _).subset h3
        next => simp at h
      next => simp at h
    · simp at h
  next => simp at h

theorem tryMatch1_head_ne {c : Char} (r : List Char) (hsp : isPySpace c = false)
    (hne : c ≠ '(') : tryMatch1 (c :: r) = none := by
  simp only [tryMatch1, countWhile_cons_neg r hsp, List.drop_zero, hne, if_false]

theorem tryMatch1_space_head {c c' : Char} (r : List Char) (hsp : isPySpace c = true)
    (hsp' : isPySpace c' = false) (hne : c' ≠ '(') : tryMatch1 (c :: c' :: r) = none := by
  have hcw : countWhile isPySpace (c :: c' :: r) = 1 := by
    rw [countWhile_cons_pos _ hsp, countWhile_cons_neg r hsp']
  simp only [tryMatch1, hcw, List.drop_succ_cons, List.drop_zero, hne, if_false]

theorem scanSub1_alpha_run {w : List Char} (t : List Char)
    (hw : ∀ c ∈ w, isAlphaC c = true) :
    scanSub tryMatch1 (w ++ t) = w ++ scanSub tryMatch1 t := by
  induction w with
  | nil => rfl
  | cons c r ih =>
    have hc : isAlphaC c = true := hw c (by simp)
    have hne : c ≠ '(' := class_ne hc (by decide)
    rw [List.cons_append, scanSub_cons_none (tryMatch1_head_ne _ (alpha_not_space hc) hne),
      ih (fun x hx => hw x (by simp [hx])), List.cons_append]
theorem tryMatch1_citation {a0 a1 y1 y2 y3 y4 : Char} (as : List Char)
    (ha0 : isUpperAZ a0 = true) (ha1 : isAuthChar a1 = true)
    (has : ∀ c ∈ as, isAuthChar c = true)
    (hy1 : isDigitC y1 = true) (hy2 : isDigitC y2 = true)
    (hy3 : isDigitC y3 = true) (hy4 : isDigitC y4 = true) :
    tryMatch1 (' ' :: '(' :: a0 :: ((a1 :: as) ++ ',' :: ' ' :: [y1, y2, y3, y4, ')'])) =
      some (as.length + 11) := by
  have h1 : countWhile isPySpace
      (' ' :: '(' :: a0 :: ((a1 :: as) ++ ',' :: ' ' :: [y1, y2, y3, y4, ')'])) = 1 := by
    rw [countWhile_cons_pos _ (by decide), countWhile_cons_neg _ (by decide)]
  have h2 : countWhile isAuthChar ((a1 :: as) ++ ',' :: ' ' :: [y1, y2, y3, y4, ')']) =
      as.length + 1 := by
    have hall : ∀ c ∈ a1 :: as, isAuthChar c = true := by
      intro c hc
      rcases List.mem_cons.mp hc with h | h
      · subst h; exact ha1
      · exact has c h
    have := countWhile_append_stop (' ' :: [y1, y2, y3, y4, ')']) hall
      (show isAuthChar ',' = false by decide)
    simp only [List.length_cons] at this
    exact this
  have h4 : ((a1 :: as) ++ ',' :: ' ' :: [y1, y2, y3, y4, ')']).drop (as.length + 1) =
      ',' :: ' ' :: [y1, y2, y3, y4, ')'] := by
    have := List.drop_left (a1 :: as) (',' :: ' ' :: [y1, y2, y3, y4, ')'])
    simp only [List.length_cons] at this
    exact this
  have h3 : countWhile isPySpace (' ' :: [y1, y2, y3, y4, ')']) = 1 := by
    rw [countWhile_cons_pos _ (by decide), countWhile_cons_neg _ (digit_not_space hy1)]
  simp only [tryMatch1, h1, List.drop_succ_cons, List.drop_zero, reduceIte, ha0, if_true,
    h2, h4, List.head?_cons, List.drop_succ_cons, h3, hy1, hy2, hy3, hy4]
  simp
  omega

theorem scanSub1_citation {a0 a1 y1 y2 y3 y4 : Char} (as : List Char)
    (ha0 : isUpperAZ a0 = true) (ha1 : isAuthChar a1 = true)
    (has : ∀ c ∈ as, isAuthChar c = true)
    (hy1 : isDigitC y1 = true) (hy2 : isDigitC y2 = true)
    (hy3 : isDigitC y3 = true) (hy4 : isDigitC y4 = true) :
    scanSub tryMatch1 (' ' :: '(' :: a0 :: ((a1 :: as) ++ ',' :: ' ' :: [y1, y2, y3, y4, ')'])) =
      [] := by
  rw [scanSub_cons_some (tryMatch1_citation as ha0 ha1 has hy1 hy2 hy3 hy4)]
  have hlen : ('(' :: a0 :: ((a1 :: as) ++ ',' :: ' ' :: [y1, y2, y3, y4, ')'])).length =
      as.length + 10 := by
    simp only [List.length_cons, List.length_append, List.length_nil]
  have hdrop : ('(' :: a0 :: ((a1 :: as) ++ ',' :: ' ' :: [y1, y2, y3, y4, ')'])).drop
      (as.length + 11 - 1) = [] := by
    apply List.drop_eq_nil_of_le
    rw [hlen]
    omega
  rw [hdrop, scanSub_nil]

theorem scanSub1_id {l : List Char} (h : ∀ x ∈ l, x ≠ '(') : scanSub tryMatch1 l = l :=
  @scanSub_of_all tryMatch1 (fun c => c ≠ '(')
    (fun c r hall => by
      cases hm : tryMatch1 (c :: r) with
      | none => rfl
      | some n => exact absurd rfl (hall '(' (tryMatch1_mem_paren hm)))
    l h

theorem scanSub2_id {l : List Char} (h : ∀ x ∈ l, x ≠ ',') : scanSub tryMatch2 l = l :=
  @scanSub_of_all tryMatch2 (fun c => c ≠ ',')
    (fun c r hall => by
      cases hm : tryMatch2 (c :: r) with
      | none => rfl
      | some n => exact absurd rfl (hall ',' (tryMatch2_mem_comma hm)))
    l h

theorem scanSub3_id {l : List Char} (h : ∀ x ∈ l, isDigitC x = false) : scanSub tryMatch3 l = l :=
  @scanSub_of_all tryMatch3 (fun c => isDigitC c = false)
    (fun c r hall => by
      cases hm : tryMatch3 (c :: r) with
      | none => rfl
      | some n =>
        obtain ⟨d, hd, hdig⟩ := tryMatch3_mem_digit hm
        rw [hall d hd] at hdig
        exact Bool.noConfusion hdig)
    l h

theorem pyStrip_eq_self {l : List Char}
    (h1 : ∀ c, l.head? = some c → isPySpace c = false)
    (h2 : ∀ c, l.getLast? = some c → isPySpace c = false) : pyStrip l = l := by
  unfold pyStrip
  have hd : l.dropWhile isPySpace = l := by
    cases l with
    | nil => rfl
    | cons c r =>
      rw [List.dropWhile_cons]
      simp [h1 c rfl]
  rw [hd]
  have hrev : l.reverse.dropWhile isPySpace = l.reverse := by
    cases hr : l.reverse with
    | nil => rfl
    | cons c r =>
      have hlast : l.getLast? = some c := by
        rw [← List.head?_reverse, hr]
        rfl
      rw [List.dropWhile_cons]
      simp [h2 c hlast]
  rw [hrev, List.reverse_reverse]

theorem splitAux_word {w : List Char} (t acc : List Char)
    (hw : ∀ c ∈ w, isPySpace c = false) :
    splitAux (w ++ t) acc = splitAux t (w.reverse ++ acc) := by
  induction w generalizing acc with
  | nil => simp
  | cons c r ih =>
    have hc : isPySpace c = false := hw c (by simp)
    rw [List.cons_append]
    show splitAux (c :: (r ++ t)) acc = _
    simp only [splitAux, hc, Bool.false_eq_true, if_false]
    rw [ih (c :: acc) (fun x hx => hw x (by simp [hx]))]
    congr 1
    simp

theorem splitAux_stop_space {acc : List Char} (t : List Char) (h : acc ≠ []) :
    splitAux (' ' :: t) acc = acc.reverse :: splitAux t [] := by
  simp only [splitAux]
  rw [if_pos (by decide), if_neg (by simp [h])]

theorem splitAux_nil_acc {acc : List Char} (h : acc ≠ []) : splitAux [] acc = [acc.reverse] := by
  simp only [splitAux]
  rw [if_neg (by simp [h])]

theorem pySplit_word {w : List Char} (h : w ≠ []) (hw : ∀ c ∈ w, isPySpace c = false) :
    pySplit w = [w] := by
  unfold pySplit
  have := splitAux_word [] [] hw
  rw [List.append_nil, List.append_nil] at this
  rw [this, splitAux_nil_acc (by simp [h]), List.reverse_reverse]

theorem pySplit_two_words {w1 w2 : List Char} (h1 : w1 ≠ []) (h2 : w2 ≠ [])
    (hw1 : ∀ c ∈ w1, isPySpace c = false) (hw2 : ∀ c ∈ w2, isPySpace c = false) :
    pySplit (w1 ++ ' ' :: w2) = [w1, w2] := by
  unfold pySplit
  rw [splitAux_word _ _ hw1, List.append_nil,
    splitAux_stop_space _ (by simp [h1]), List.reverse_reverse]
  have hw2e : splitAux w2 [] = [w2] := by
    have := splitAux_word [] [] hw2
    rw [List.append_nil, List.append_nil] at this
    rw [this, splitAux_nil_acc (by simp [h2]), List.reverse_reverse]
  rw [hw2e]

theorem joinWords_pair (w1 w2 : List Char) : joinWords [w1, w2] = w1 ++ ' ' :: w2 := rfl

theorem lower_not_upper {c : Char} (h : isLowerAZ c = true) : isUpperAZ c = false := by
  simp only [isLowerAZ, Bool.and_eq_true, decide_eq_true_eq] at h
  have hz : ¬(c ≤ 'Z') := fun hc => absurd (le_trans h.1 hc) (by decide)
  simp only [isUpperAZ]
  rw [decide_eq_false hz, Bool.and_false]

theorem alpha_not_digit {c : Char} (h : isAlphaC c = true) : isDigitC c = false := by
  simp only [isAlphaC, Bool.or_eq_true] at h
  have h1 : 'A' ≤ c := by
    rcases h with h | h
    · simp only [isUpperAZ, Bool.and_eq_true, decide_eq_true_eq] at h
      exact h.1
    · simp only [isLowerAZ, Bool.and_eq_true, decide_eq_true_eq] at h
      exact le_trans (by decide) h.1
  have hz : ¬(c ≤ '9') := fun hc => absurd (le_trans h1 hc) (by decide)
  simp only [isDigitC]
  rw [decide_eq_false hz, Bool.and_false]

theorem bold_false_of_capWord {g0 : Char} {gs : List Char} (tail : List Char)
    (hgs : ∀ c ∈ gs, isLowerAZ c = true) :
    leadsWith boldColon (g0 :: (gs ++ ' ' :: tail)) = false := by
  by_cases hB : g0 = 'B'
  · subst hB
    cases gs with
    | nil => simp [leadsWith, boldColon]
    | cons c gs' =>
      have hc : ('O' == c) = false :=
        beq_false_of_class (show isUpperAZ 'O' = true by decide)
          (lower_not_upper (hgs c (by simp)))
      simp [leadsWith, boldColon, hc]
  · have hb : ('B' == g0) = false := by
      cases hx : 'B' == g0
      · rfl
      · exact absurd (eq_of_beq hx).symm hB
    simp [leadsWith, boldColon, hb]

theorem idCode_false_of_capWord {g0 : Char} {gs : List Char} (tail : List Char)
    (hg0 : isUpperAZ g0 = true) (hgs : ∀ c ∈ gs, isLowerAZ c = true) :
    idCodeHit (g0 :: (gs ++ ' ' :: tail)) = false := by
  have hk : countWhile isUpperAZ (g0 :: (gs ++ ' ' :: tail)) = 1 := by
    rw [countWhile_cons_pos _ hg0]
    cases gs with
    | nil =>
      rw [List.nil_append, countWhile_cons_neg _ (show isUpperAZ ' ' = false by decide)]
    | cons c gs' =>
      rw [List.cons_append, countWhile_cons_neg _ (lower_not_upper (hgs c (by simp)))]
  simp [idCodeHit, hk]

theorem mem_of_getLast?_eq : ∀ {l : List Char} {c : Char}, l.getLast? = some c → c ∈ l
  | [], _, h => by simp at h
  | [a], c, h => by
    simp only [List.getLast?_singleton, Option.some.injEq] at h
    simp [h]
  | a :: b :: t, c, h => by
    rw [List.getLast?_cons_cons] at h
    exact List.mem_cons_of_mem a (mem_of_getLast?_eq h)

theorem cleanChars_binomial {g0 s0 : Char} {gs ss : List Char}
    (hg0 : isUpperAZ g0 = true) (hgs : ∀ c ∈ gs, isLowerAZ c = true)
    (hs0 : isLowerAZ s0 = true) (hss : ∀ c ∈ ss, isLowerAZ c = true) :
    cleanChars ((g0 :: gs) ++ ' ' :: (s0 :: ss)) = some ((g0 :: gs) ++ ' ' :: (s0 :: ss)) := by
  have hGalpha : ∀ c ∈ g0 :: gs, isAlphaC c = true := by
    intro c hc
    rcases List.mem_cons.mp hc with h | h
    · subst h; exact upper_alpha hg0
    · exact lower_alpha (hgs c h)
  have hSalpha : ∀ c ∈ s0 :: ss, isAlphaC c = true := by
    intro c hc
    rcases List.mem_cons.mp hc with h | h
    · subst h; exact lower_alpha hs0
    · exact lower_alpha (hss c h)
  have hstrip : pyStrip ((g0 :: gs) ++ ' ' :: (s0 :: ss)) = (g0 :: gs) ++ ' ' :: (s0 :: ss) := by
    apply pyStrip_eq_self
    · intro c hc
      rw [List.cons_append] at hc
      simp only [List.head?_cons, Option.some.injEq] at hc
      subst hc
      exact alpha_not_space (upper_alpha hg0)
    · intro c hc
      rw [List.getLast?_append_cons] at hc
      have : (s0 :: ss).getLast? = some c := by
        cases hss0 : ss with
        | nil => simpa [hss0] using hc
        | cons d ds => rw [hss0] at hc; rw [← List.getLast?_cons_cons]; exact hc
      have hmem : c ∈ s0 :: ss := mem_of_getLast?_eq this
      exact alpha_not_space (hSalpha c hmem)
  have hscan1 : scanSub tryMatch1 ((g0 :: gs) ++ ' ' :: (s0 :: ss)) =
      (g0 :: gs) ++ ' ' :: (s0 :: ss) := by
    apply scanSub1_id
    intro x hx
    rcases List.mem_append.mp hx with h | h
    · exact class_ne (hGalpha x h) (by decide)
    · rcases List.mem_cons.mp h with h | h
      · subst h; decide
      · exact class_ne (hSalpha x h) (by decide)
  have hscan2 : scanSub tryMatch2 ((g0 :: gs) ++ ' ' :: (s0 :: ss)) =
      (g0 :: gs) ++ ' ' :: (s0 :: ss) := by
    apply scanSub2_id
    intro x hx
    rcases List.mem_append.mp hx with h | h
    · exact class_ne (hGalpha x h) (by decide)
    · rcases List.mem_cons.mp h with h | h
      · subst h; decide
      · exact class_ne (hSalpha x h) (by decide)
  have hscan3 : scanSub tryMatch3 ((g0 :: gs) ++ ' ' :: (s0 :: ss)) =
      (g0 :: gs) ++ ' ' :: (s0 :: ss) := by
    apply scanSub3_id
    intro x hx
    rcases List.mem_append.mp hx with h | h
    · exact alpha_not_digit (hGalpha x h)
    · rcases List.mem_cons.mp h with h | h
      · subst h; decide
      · exact alpha_not_digit (hSalpha x h)
  have hsplit : pySplit ((g0 :: gs) ++ ' ' :: (s0 :: ss)) = [g0 :: gs, s0 :: ss] :=
    pySplit_two_words (by simp) (by simp)
      (fun c hc => alpha_not_space (hGalpha c hc))
      (fun c hc => alpha_not_space (hSalpha c hc))
  have hempty : ((g0 :: gs) ++ ' ' :: (s0 :: ss)).isEmpty = false := by
    rw [List.cons_append]
    rfl
  have hbold := @bold_false_of_capWord g0 gs (s0 :: ss) hgs
  have hid := @idCode_false_of_capWord g0 gs (s0 :: ss) hg0 hgs
  simp only [List.cons_append] at hstrip hscan1 hscan2 hscan3 hsplit ⊢
  simp only [cleanChars, hempty, Bool.false_eq_true, if_false, hstrip, hbold, hid,
    Bool.or_self, hscan1, hscan2, hscan3, joinWords_pair, validParts, hg0, hs0,
    Bool.and_self, if_true, List.isEmpty_cons, List.cons_append, hsplit]

theorem cleanChars_citation {g0 s0 a0 a1 : Char} {gs ss as : List Char} {y1 y2 y3 y4 : Char}
    (hg0 : isUpperAZ g0 = true) (hgs : ∀ c ∈ gs, isLowerAZ c = true)
    (hs0 : isLowerAZ s0 = true) (hss : ∀ c ∈ ss, isLowerAZ c = true)
    (ha0 : isUpperAZ a0 = true) (ha1 : isAuthChar a1 = true)
    (has : ∀ c ∈ as, isAuthChar c = true)
    (hy1 : isDigitC y1 = true) (hy2 : isDigitC y2 = true)
    (hy3 : isDigitC y3 = true) (hy4 : isDigitC y4 = true) :
    cleanChars ((g0 :: gs) ++ ' ' ::
        ((s0 :: ss) ++ ' ' :: '(' :: a0 :: ((a1 :: as) ++ ',' :: ' ' :: [y1, y2, y3, y4, ')']))) =
      some ((g0 :: gs) ++ ' ' :: (s0 :: ss)) := by
  have hGalpha : ∀ c ∈ g0 :: gs, isAlphaC c = true := by
    intro c hc
    rcases List.mem_cons.mp hc with h | h
    · subst h; exact upper_alpha hg0
    · exact lower_alpha (hgs c h)
  have hSalpha : ∀ c ∈ s0 :: ss, isAlphaC c = true := by
    intro c hc
    rcases List.mem_cons.mp hc with h | h
    · subst h; exact lower_alpha hs0
    · exact lower_alpha (hss c h)
  have hW : (g0 :: gs) ++ ' ' ::
      ((s0 :: ss) ++ ' ' :: '(' :: a0 :: ((a1 :: as) ++ ',' :: ' ' :: [y1, y2, y3, y4, ')'])) =
      ((g0 :: gs) ++ ' ' ::
        ((s0 :: ss) ++ ' ' :: '(' :: a0 :: ((a1 :: as) ++ ',' :: ' ' :: [y1, y2, y3, y4]))) ++
        [')'] := by
    simp [List.append_assoc]
  have hstrip : pyStrip ((g0 :: gs) ++ ' ' ::
      ((s0 :: ss) ++ ' ' :: '(' :: a0 :: ((a1 :: as) ++ ',' :: ' ' :: [y1, y2, y3, y4, ')']))) =
      (g0 :: gs) ++ ' ' ::
      ((s0 :: ss) ++ ' ' :: '(' :: a0 :: ((a1 :: as) ++ ',' :: ' ' :: [y1, y2, y3, y4, ')'])) := by
    apply pyStrip_eq_self
    · intro c hc
      rw [List.cons_append] at hc
      simp only [List.head?_cons, Option.some.injEq] at hc
      subst hc
      exact alpha_not_space (upper_alpha hg0)
    · intro c hc
      rw [hW, List.getLast?_concat] at hc
      simp only [Option.some.injEq] at hc
      subst hc
      decide
  have h1 := scanSub1_alpha_run
    (' ' :: ((s0 :: ss) ++ ' ' :: '(' :: a0 :: ((a1 :: as) ++ ',' :: ' ' :: [y1, y2, y3, y4, ')'])))
    hGalpha
  have h2 : scanSub tryMatch1 (' ' ::
      ((s0 :: ss) ++ ' ' :: '(' :: a0 :: ((a1 :: as) ++ ',' :: ' ' :: [y1, y2, y3, y4, ')']))) =
      ' ' :: scanSub tryMatch1
        ((s0 :: ss) ++ ' ' :: '(' :: a0 :: ((a1 :: as) ++ ',' :: ' ' :: [y1, y2, y3, y4, ')'])) := by
    rw [List.cons_append]
    exact scanSub_cons_none (tryMatch1_space_head _ (by decide)
      (alpha_not_space (lower_alpha hs0)) (class_ne (lower_alpha hs0) (by decide)))
  have h3 := scanSub1_alpha_run
    (' ' :: '(' :: a0 :: ((a1 :: as) ++ ',' :: ' ' :: [y1, y2, y3, y4, ')'])) hSalpha
  have h4 := scanSub1_citation as ha0 ha1 has hy1 hy2 hy3 hy4
  have hscan1 : scanSub tryMatch1 ((g0 :: gs) ++ ' ' ::
      ((s0 :: ss) ++ ' ' :: '(' :: a0 :: ((a1 :: as) ++ ',' :: ' ' :: [y1, y2, y3, y4, ')']))) =
      (g0 :: gs) ++ ' ' :: (s0 :: ss) := by
    rw [h1, h2, h3, h4, List.append_nil]
  have hscan2 : scanSub tryMatch2 ((g0 :: gs) ++ ' ' :: (s0 :: ss)) =
      (g0 :: gs) ++ ' ' :: (s0 :: ss) := by
    apply scanSub2_id
    intro x hx
    rcases List.mem_append.mp hx with h | h
    · exact class_ne (hGalpha x h) (by decide)
    · rcases List.mem_cons.mp h with h | h
      · subst h; decide
      · exact class_ne (hSalpha x h) (by decide)
  have hscan3 : scanSub tryMatch3 ((g0 :: gs) ++ ' ' :: (s0 :: ss)) =
      (g0 :: gs) ++ ' ' :: (s0 :: ss) := by
    apply scanSub3_id
    intro x hx
    rcases List.mem_append.mp hx with h | h
    · exact alpha_not_digit (hGalpha x h)
    · rcases List.mem_cons.mp h with h | h
      · subst h; decide
      · exact alpha_not_digit (hSalpha x h)
  have hsplit : pySplit ((g0 :: gs) ++ ' ' :: (s0 :: ss)) = [g0 :: gs, s0 :: ss] :=
    pySplit_two_words (by simp) (by simp)
      (fun c hc => alpha_not_space (hGalpha c hc))
      (fun c hc => alpha_not_space (hSalpha c hc))
  have hempty : ((g0 :: gs) ++ ' ' ::
      ((s0 :: ss) ++ ' ' :: '(' :: a0 :: ((a1 :: as) ++ ',' :: ' ' :: [y1, y2, y3, y4, ')']))).isEmpty
      = false := by
    rw [List.cons_append]
    rfl
  have hbold := @bold_false_of_capWord g0 gs
    ((s0 :: ss) ++ ' ' :: '(' :: a0 :: ((a1 :: as) ++ ',' :: ' ' :: [y1, y2, y3, y4, ')'])) hgs
  have hid := @idCode_false_of_capWord g0 gs
    ((s0 :: ss) ++ ' ' :: '(' :: a0 :: ((a1 :: as) ++ ',' :: ' ' :: [y1, y2, y3, y4, ')']))
    hg0 hgs
  simp only [List.cons_append] at hstrip hscan1 hscan2 hscan3 hsplit hbold hid ⊢
  simp only [cleanChars, hempty, Bool.false_eq_true, if_false, hstrip, hbold, hid,
    Bool.or_self, hscan1, hscan2, hscan3, joinWords_pair, validParts, hg0, hs0,
    Bool.and_self, if_true, List.isEmpty_cons, List.cons_append, hsplit]

theorem strData_append (s t : String) : (s ++ t).data = s.data ++ t.data := rfl

theorem string_mk_eq {s : String} {l : List Char} (h : s.data = l) : (⟨l⟩ : String) = s := by
  apply String.ext
  rw [h]

theorem yearWordB_shape {l : List Char} (h : yearWordB l = true) :
    ∃ y1 y2 y3 y4, l = [y1, y2, y3, y4] ∧ isDigitC y1 = true ∧ isDigitC y2 = true ∧
      isDigitC y3 = true ∧ isDigitC y4 = true := by
  rcases l with _ | ⟨y1, _ | ⟨y2, _ | ⟨y3, _ | ⟨y4, _ | ⟨y5, t⟩⟩⟩⟩⟩ <;>
    simp [yearWordB, and_assoc] at h
  exact ⟨y1, y2, y3, y4, rfl, h.1, h.2.1, h.2.2.1, h.2.2.2⟩

/-- Claim C2, amended. For every valid input `"Genus species (Author,
Year)"` (genus a capitalized alphabetic word, epithet lowercase
alphabetic, author an uppercase-led citation word, year four digits),
`clean_scientific_name` returns `"Genus species"` with the citation
removed, and it is idempotent on these inputs: applied to the cleaned
result it returns it unchanged. (Idempotence on the whole domain is
refuted by `C2_counterexample`.) -/
theorem C2_clean_valid_citation (g s a y : String)
    (hg : upperLowerWordB g.data = true) (hs : lowerWordB s.data = true)
    (ha : authorWordB a.data = true) (hy : yearWordB y.data = true) :
    clean_scientific_name (g ++ " " ++ s ++ " (" ++ a ++ ", " ++ y ++ ")") = some (g ++ " " ++ s)
    ∧ clean_scientific_name (g ++ " " ++ s) = some (g ++ " " ++ s) := by
  rcases hgd : g.data with _ | ⟨g0, gs⟩
  · rw [hgd] at hg; exact absurd hg (by simp [upperLowerWordB])
  rcases hsd : s.data with _ | ⟨s0, ss⟩
  · rw [hsd] at hs; exact absurd hs (by simp [lowerWordB])
  rcases had : a.data with _ | ⟨a0, _ | ⟨a1, as⟩⟩
  · rw [had] at ha; exact absurd ha (by simp [authorWordB])
  · rw [had] at ha; exact absurd ha (by simp [authorWordB])
  obtain ⟨y1, y2, y3, y4, hyd, hy1, hy2, hy3, hy4⟩ := yearWordB_shape hy
  rw [hgd] at hg
  rw [hsd] at hs
  rw [had] at ha
  have hGW : isUpperAZ g0 = true ∧ ∀ c ∈ gs, isLowerAZ c = true := by
    simpa [upperLowerWordB, List.all_eq_true] using hg
  have hSW : isLowerAZ s0 = true ∧ ∀ c ∈ ss, isLowerAZ c = true := by
    simpa [lowerWordB, List.all_eq_true] using hs
  have hAW : isUpperAZ a0 = true ∧ isAuthChar a1 = true ∧ ∀ c ∈ as, isAuthChar c = true := by
    simpa [authorWordB, List.all_eq_true, and_assoc] using ha
  have hdata2 : (g ++ " " ++ s).data = (g0 :: gs) ++ ' ' :: (s0 :: ss) := by
    simp only [strData_append, hgd, hsd]
    simp [List.append_assoc]
  have hdata1 : (g ++ " " ++ s ++ " (" ++ a ++ ", " ++ y ++ ")").data =
      (g0 :: gs) ++ ' ' ::
        ((s0 :: ss) ++ ' ' :: '(' :: a0 :: ((a1 :: as) ++ ',' :: ' ' :: [y1, y2, y3, y4, ')'])) := by
    simp only [strData_append, hgd, hsd, had, hyd]
    simp [List.append_assoc]
  constructor
  · unfold clean_scientific_name
    rw [hdata1,
      cleanChars_citation hGW.1 hGW.2 hSW.1 hSW.2 hAW.1 hAW.2.1 hAW.2.2 hy1 hy2 hy3 hy4]
    rw [Option.map_some', string_mk_eq hdata2]
  · unfold clean_scientific_name
    rw [hdata2, cleanChars_binomial hGW.1 hGW.2 hSW.1 hSW.2]
    rw [Option.map_some', string_mk_eq hdata2]


/-- Claim C2, counterexample to whole-domain idempotence: cleaning
`"(Doe, 1900)AB1x cd"` strips the leading citation and returns
`"AB1x cd"`, but cleaning that result returns `none` (the result now
matches the `^[A-Z]{2,}\d+` identifier rejection), so
`clean(clean(x)) ≠ clean(x)` at an `x` where `clean x` is not null. -/
theorem C2_counterexample : clean_scientific_name "(Doe, 1900)AB1x cd" = some "AB1x cd" ∧
    clean_scientific_name "AB1x cd" = none := by
  constructor
  · rfl
  · rfl

/-- Witness for C2: the amended theorem applied at the concrete valid
input `"Aeria elara (Doe, 1900)"`. -/
theorem C2_witness :
    clean_scientific_name ("Aeria" ++ " " ++ "elara" ++ " (" ++ "Doe" ++ ", " ++ "1900" ++ ")") =
      some ("Aeria" ++ " " ++ "elara") ∧
    clean_scientific_name ("Aeria" ++ " " ++ "elara") = some ("Aeria" ++ " " ++ "elara") :=
  C2_clean_valid_citation "Aeria" "elara" "Doe" "1900" (by decide) (by decide) (by decide)
    (by decide)

theorem leadsWith_iff_exists {w l : List Char} : leadsWith w l = true ↔ ∃ t, l = w ++ t := by
  induction w generalizing l with
  | nil => simp [leadsWith]
  | cons a as ih =>
    cases l with
    | nil =>
      simp only [leadsWith, List.cons_append]
      constructor
      · intro h; exact Bool.noConfusion h
      · rintro ⟨t, ht⟩; exact List.noConfusion ht
    | cons b bs =>
      simp only [leadsWith, Bool.and_eq_true, beq_iff_eq, ih, List.cons_append]
      constructor
      · rintro ⟨rfl, t, rfl⟩; exact ⟨t, rfl⟩
      · rintro ⟨t, ht⟩
        injection ht with h1 h2
        exact ⟨h1.symm, t, h2⟩

theorem countWhile_take_all (p : Char → Bool) :
    ∀ (l : List Char), ∀ c ∈ l.take (countWhile p l), p c = true := by
  intro l
  induction l with
  | nil => simp
  | cons a r ih =>
    intro c hc
    cases hp : p a with
    | false => rw [countWhile_cons_neg _ hp] at hc; simp at hc
    | true =>
      rw [countWhile_cons_pos _ hp, List.take_succ_cons] at hc
      rcases List.mem_cons.mp hc with h | h
      · subst h; exact hp
      · exact ih c h

theorem digit_not_upper {c : Char} (h : isDigitC c = true) : isUpperAZ c = false := by
  simp only [isDigitC, Bool.and_eq_true, decide_eq_true_eq] at h
  have hz : ¬('A' ≤ c) := fun hc => absurd (le_trans hc h.2) (by decide)
  simp only [isUpperAZ]
  rw [decide_eq_false hz, Bool.false_and]

theorem pyStrip_keeps_head (w t : List Char) (h0 : w ≠ [])
    (hw : ∀ c ∈ w, isPySpace c = false) : ∃ t', pyStrip (w ++ t) = w ++ t' := by
  unfold pyStrip
  have hleft : (w ++ t).dropWhile isPySpace = w ++ t := by
    cases w with
    | nil => exact absurd rfl h0
    | cons c r =>
      rw [List.cons_append, List.dropWhile_cons]
      simp [hw c (by simp)]
  rw [hleft, List.reverse_append]
  cases hdw : t.reverse.dropWhile isPySpace with
  | nil =>
    have heq : (t.reverse ++ w.reverse).dropWhile isPySpace = w.reverse.dropWhile isPySpace := by
      rw [List.dropWhile_append, hdw]
      simp
    have hwrev : w.reverse.dropWhile isPySpace = w.reverse := by
      cases hwr : w.reverse with
      | nil => rfl
      | cons c r =>
        have hc : c ∈ w := by
          have : c ∈ w.reverse := by rw [hwr]; simp
          simpa using this
        rw [List.dropWhile_cons]
        simp [hw c hc]
    rw [heq, hwrev, List.reverse_reverse]
    exact ⟨[], by simp⟩
  | cons c r =>
    have heq : (t.reverse ++ w.reverse).dropWhile isPySpace = (c :: r) ++ w.reverse := by
      rw [List.dropWhile_append, hdw]
      simp
    rw [heq]
    refine ⟨(c :: r).reverse, ?_⟩
    rw [List.reverse_append, List.reverse_reverse]

theorem leadsWith_append (w t : List Char) : leadsWith w (w ++ t) = true :=
  leadsWith_iff_exists.mpr ⟨t, rfl⟩

theorem bold_strip {l : List Char} (h : leadsWith boldColon l = true) :
    leadsWith boldColon (pyStrip l) = true := by
  obtain ⟨t, rfl⟩ := leadsWith_iff_exists.mp h
  obtain ⟨t', ht'⟩ := pyStrip_keeps_head boldColon t (by simp [boldColon]) (by decide)
  rw [ht']
  exact leadsWith_append _ _

theorem idCode_strip {l : List Char} (h : idCodeHit l = true) :
    idCodeHit (pyStrip l) = true := by
  simp only [idCodeHit, Bool.and_eq_true, decide_eq_true_eq] at h
  obtain ⟨h2, hdig⟩ := h
  rcases hdr : l.drop (countWhile isUpperAZ l) with _ | ⟨d, rest⟩
  · rw [hdr] at hdig; exact Bool.noConfusion hdig
  rw [hdr] at hdig
  have hdig' : isDigitC d = true := hdig
  have hsplit : l = l.take (countWhile isUpperAZ l) ++ d :: rest := by
    rw [← hdr, List.take_append_drop]
  have htake : ∀ c ∈ l.take (countWhile isUpperAZ l), isUpperAZ c = true :=
    countWhile_take_all isUpperAZ l
  have hlen : (l.take (countWhile isUpperAZ l)).length = countWhile isUpperAZ l :=
    List.length_take_of_le (countWhile_le _ _)
  have hw : ∀ c ∈ l.take (countWhile isUpperAZ l) ++ [d], isPySpace c = false := by
    intro c hc
    rcases List.mem_append.mp hc with hc | hc
    · exact isPySpace_false_of_class (htake c hc) (by decide) (by decide) (by decide)
        (by decide) (by decide) (by decide)
    · simp only [List.mem_singleton] at hc
      subst hc
      exact digit_not_space hdig'
  obtain ⟨t', ht'⟩ := pyStrip_keeps_head (l.take (countWhile isUpperAZ l) ++ [d]) rest
    (by simp) hw
  have hl2 : l = (l.take (countWhile isUpperAZ l) ++ [d]) ++ rest := by
    rw [List.append_assoc, List.singleton_append, ← hsplit]
  rw [hl2, ht']
  have hform : (l.take (countWhile isUpperAZ l) ++ [d]) ++ t' =
      l.take (countWhile isUpperAZ l) ++ (d :: t') := by
    rw [List.append_assoc, List.singleton_append]
  rw [hform]
  have hcw : countWhile isUpperAZ (l.take (countWhile isUpperAZ l) ++ (d :: t')) =
      countWhile isUpperAZ l := by
    rw [countWhile_append_stop t' htake (digit_not_upper hdig'), hlen]
  have hdropgen : ∀ (xs zs : List Char), xs.length = countWhile isUpperAZ l →
      (xs ++ zs).drop (countWhile isUpperAZ l) = zs := by
    intro xs zs hx
    rw [← hx]
    exact List.drop_left _ _
  have hdrop : (l.take (countWhile isUpperAZ l) ++ (d :: t')).drop (countWhile isUpperAZ l) =
      d :: t' := hdropgen _ _ hlen
  simp only [idCodeHit, hcw, hdrop]
  simp [h2, hdig']

/-- Claim C5: `clean_scientific_name` returns null for the empty input;
for every input that starts with the `"BOLD:"` external-ID prefix or
matches the `^[A-Z]{2,}\d+` identifier pattern (the prefix survives the
initial strip, so the raw input is rejected); and for every input whose
processed token list fails validation (fewer than two tokens, first
token not starting uppercase, or second token not starting lowercase).
In particular `clean("BOLD:AAA1234")` and `clean("Mechanitis")` are
null. -/
theorem C5_clean_rejections :
    clean_scientific_name "" = none
    ∧ (∀ s : String, (leadsWith boldColon s.data || idCodeHit s.data) = true →
        clean_scientific_name s = none)
    ∧ (∀ s : String,
        validParts (pySplit (joinWords (pySplit (scanSub tryMatch3 (scanSub tryMatch2
          (scanSub tryMatch1 (pyStrip s.data))))))) = false →
        clean_scientific_name s = none)
    ∧ clean_scientific_name "BOLD:AAA1234" = none
    ∧ clean_scientific_name "Mechanitis" = none := by
  refine ⟨rfl, ?_, ?_, rfl, rfl⟩
  · intro s hs
    have hrej : (leadsWith boldColon (pyStrip s.data) || idCodeHit (pyStrip s.data)) = true := by
      rcases Bool.or_eq_true_iff.mp hs with h | h
      · rw [bold_strip h]
        rfl
      · rw [idCode_strip h]
        simp
    simp only [clean_scientific_name, cleanChars, hrej, if_true]
    split
    · rfl
    · rfl
  · intro s hvp
    simp only [clean_scientific_name, cleanChars, hvp, Bool.false_eq_true, if_false]
    split
    · rfl
    split
    · rfl
    rfl

theorem tableFind_append_some {t : MimTable} (t₂ : MimTable) {k : MimKey} {v : String × String}
    (h : tableFind t k = some v) : tableFind (t ++ t₂) k = some v := by
  induction t with
  | nil => simp [tableFind] at h
  | cons e r ih =>
    obtain ⟨ke, ve⟩ := e
    by_cases hk : ke = k
    · simpa [tableFind, hk] using h
    · simp only [tableFind, hk, if_false, List.cons_append] at h ⊢
      exact ih h

theorem tableFind_append_none {t : MimTable} (t₂ : MimTable) {k : MimKey}
    (h : tableFind t k = none) : tableFind (t ++ t₂) k = tableFind t₂ k := by
  induction t with
  | nil => rfl
  | cons e r ih =>
    obtain ⟨ke, ve⟩ := e
    by_cases hk : ke = k
    · simp [tableFind, hk] at h
    · simp only [tableFind, hk, if_false] at h
      simp only [List.cons_append, tableFind, hk, if_false]
      exact ih h

theorem find_insert_preserve {t : MimTable} {k k' : MimKey} {v w : String × String}
    (h : tableFind t k' = some w) : tableFind (insertIfAbsent t k v) k' = some w := by
  unfold insertIfAbsent
  cases hf : tableFind t k with
  | some _ => exact h
  | none => exact tableFind_append_some _ h

theorem find_insert_inv {t : MimTable} {k k' : MimKey} {v w : String × String}
    (h : tableFind (insertIfAbsent t k v) k' = some w) :
    tableFind t k' = some w ∨ (k' = k ∧ tableFind t k = none ∧ w = v) := by
  unfold insertIfAbsent at h
  cases hf : tableFind t k with
  | some x => rw [hf] at h; exact Or.inl h
  | none =>
    rw [hf] at h
    cases hf' : tableFind t k' with
    | some w' =>
      rw [tableFind_append_some _ hf'] at h
      exact Or.inl h
    | none =>
      rw [tableFind_append_none _ hf'] at h
      by_cases hk : k = k'
      · subst hk
        simp only [tableFind, if_pos rfl, Option.some.injEq] at h
        simp [tableFind] at h
        exact Or.inr ⟨rfl, rfl, h.symm⟩
      · simp [tableFind, hk] at h

theorem build_fold_preserve (rows : List DoreRow) :
    ∀ (t : MimTable) (k : MimKey) (v : String × String),
    tableFind t k = some v → tableFind (rows.foldl buildMimStep t) k = some v := by
  induction rows with
  | nil => intro t k v h; exact h
  | cons r rs ih =>
    intro t k v h
    rw [List.foldl_cons]
    apply ih
    unfold buildMimStep
    cases hs : cleanDoreSubspecies r.subspecies with
    | none =>
      simp only [hs]
      exact find_insert_preserve h
    | some s =>
      simp only [hs]
      exact find_insert_preserve (find_insert_preserve h)

theorem buildMimStep_find_inv (t : MimTable) (row : DoreRow) (k : MimKey) (v : String × String)
    (h : tableFind (buildMimStep t row) k = some v) :
    tableFind t k = some v ∨
      (tableFind t k = none ∧ v = (normalize_mimicry row.mMim, normalize_mimicry row.fMim) ∧
        (k = (pyLowerS (pyStripS (row.genus ++ " " ++ row.species)), none) ∨
          ∃ s, cleanDoreSubspecies row.subspecies = some s ∧
            k = (pyLowerS (pyStripS (row.genus ++ " " ++ row.species)), some (pyLowerS s)))) := by
  unfold buildMimStep at h
  cases hs : cleanDoreSubspecies row.subspecies with
  | none =>
    simp only [hs] at h
    rcases find_insert_inv h with h' | ⟨hk, hn, hv⟩
    · exact Or.inl h'
    · subst hk
      exact Or.inr ⟨hn, hv, Or.inl rfl⟩
  | some s =>
    simp only [hs] at h
    rcases find_insert_inv h with h' | ⟨hk, hn, hv⟩
    · rcases find_insert_inv h' with h'' | ⟨hk2, hn2, hv2⟩
      · exact Or.inl h''
      · subst hk2
        exact Or.inr ⟨hn2, hv2, Or.inr ⟨s, rfl, rfl⟩⟩
    · subst hk
      have hnone : tableFind t
          (pyLowerS (pyStripS (row.genus ++ " " ++ row.species)), none) = none := by
        cases hx : tableFind t
            (pyLowerS (pyStripS (row.genus ++ " " ++ row.species)), none) with
        | none => rfl
        | some w =>
          rw [find_insert_preserve hx] at hn
          exact Option.noConfusion hn
      exact Or.inr ⟨hnone, hv, Or.inl rfl⟩

theorem lookup_mimicry_present (t : MimTable) (name s : String)
    (hn : name ≠ "") (hs : s ≠ "") :
    lookup_mimicry t name (some s) =
      (match tableFind t (pyStripS (pyLowerS name), some (pyStripS (pyLowerS s))) with
       | some v => v
       | none =>
         match tableFind t (pyStripS (pyLowerS name), none) with
         | some v => v
         | none => ("Unknown", "Unknown")) := by
  simp [lookup_mimicry, hn, hs]

/-- Claim C1: the mimicry lookup is two-tier with first-write-wins
construction. Existing entries are never overwritten by later rows
(first conjunct); one build step adds at most the full key (only when
the cleaned subspecies is present) and the species-only key, each only
when absent, always valued with the row's normalized trait pair (second
conjunct); lookup with a present subspecies tries the full key, then
the species-only key, then returns the Unknown pair (third conjunct);
and the three example lookups of the spec evaluate as stated (last
three conjuncts). -/
theorem C1_mimicry_two_tier :
    (∀ (rows : List DoreRow) (t : MimTable) (k : MimKey) (v : String × String),
      tableFind t k = some v → tableFind (rows.foldl buildMimStep t) k = some v)
    ∧ (∀ (t : MimTable) (row : DoreRow) (k : MimKey) (v : String × String),
      tableFind (buildMimStep t row) k = some v →
        tableFind t k = some v ∨
          (tableFind t k = none ∧
            v = (normalize_mimicry row.mMim, normalize_mimicry row.fMim) ∧
            (k = (pyLowerS (pyStripS (row.genus ++ " " ++ row.species)), none) ∨
              ∃ s, cleanDoreSubspecies row.subspecies = some s ∧
                k = (pyLowerS (pyStripS (row.genus ++ " " ++ row.species)), some (pyLowerS s)))))
    ∧ (∀ (t : MimTable) (name s : String), name ≠ "" → s ≠ "" →
      lookup_mimicry t name (some s) =
        (match tableFind t (pyStripS (pyLowerS name), some (pyStripS (pyLowerS s))) with
         | some v => v
         | none =>
           match tableFind t (pyStripS (pyLowerS name), none) with
           | some v => v
           | none => ("Unknown", "Unknown")))
    ∧ lookup_mimicry (build_mimicry_lookup
        [⟨"Aeria", "elara", none, some "Red", some "Red"⟩,
         ⟨"Aeria", "elara", some "eximia", some "Blue", some "Blue"⟩])
        "Aeria elara" (some "eximia") = ("Blue", "Blue")
    ∧ lookup_mimicry (build_mimicry_lookup
        [⟨"Aeria", "elara", none, some "Red", some "Red"⟩,
         ⟨"Aeria", "elara", some "eximia", some "Blue", some "Blue"⟩])
        "Aeria elara" (some "other") = ("Red", "Red")
    ∧ lookup_mimicry (build_mimicry_lookup
        [⟨"Aeria", "elara", none, some "Red", some "Red"⟩,
         ⟨"Aeria", "elara", some "eximia", some "Blue", some "Blue"⟩])
        "Unknown genus" none = ("Unknown", "Unknown") :=
  ⟨build_fold_preserve, buildMimStep_find_inv, lookup_mimicry_present,
    by decide, by decide, by decide⟩

theorem determine_status_eq (rack tissue : Option String) :
    determine_sequencing_status rack tissue =
      if containsSubS (rack.getD "") "Not in TOL" = false ∧ 5 < (rack.getD "").length then
        "Sequenced"
      else if containsSubS (tissue.getD "") "NOT_COLLECTED" = false ∧
          tissue.getD "" ≠ "nan" ∧ tissue.getD "" ≠ "" then
        "Tissue Available"
      else "Preserved Specimen" := by
  simp only [determine_sequencing_status]
  by_cases h1 : containsSubS (rack.getD "") "Not in TOL" = false ∧ 5 < (rack.getD "").length
  · have hb : (!containsSubS (rack.getD "") "Not in TOL" &&
        decide (5 < (rack.getD "").length)) = true := by
      simp [h1.1, h1.2]
    rw [if_pos hb, if_pos h1]
  · have hb : (!containsSubS (rack.getD "") "Not in TOL" &&
        decide (5 < (rack.getD "").length)) = false := by
      cases hcc : containsSubS (rack.getD "") "Not in TOL"
      · have hl : ¬(5 < (rack.getD "").length) := fun hl => h1 ⟨hcc, hl⟩
        simp [hl]
      · simp
    rw [if_neg (show ¬((!containsSubS (rack.getD "") "Not in TOL" &&
      decide (5 < (rack.getD "").length)) = true) from by
        rw [hb]; exact fun h => Bool.noConfusion h), if_neg h1]
    by_cases h2 : containsSubS (tissue.getD "") "NOT_COLLECTED" = false ∧
        tissue.getD "" ≠ "nan" ∧ tissue.getD "" ≠ ""
    · have hb2 : (!containsSubS (tissue.getD "") "NOT_COLLECTED" &&
          !(decide (tissue.getD "" = "nan") || decide (tissue.getD "" = ""))) = true := by
        simp [h2.1, h2.2.1, h2.2.2]
      rw [if_pos hb2, if_pos h2]
    · have hb2 : (!containsSubS (tissue.getD "") "NOT_COLLECTED" &&
          !(decide (tissue.getD "" = "nan") || decide (tissue.getD "" = ""))) = false := by
      
        cases hcc : containsSubS (tissue.getD "") "NOT_COLLECTED"
        · by_cases hn : tissue.getD "" = "nan"
          · simp [hn]
          · by_cases he : tissue.getD "" = ""
            · simp [he]
            · exact absurd ⟨hcc, hn, he⟩ h2
        · simp
      rw [if_neg (show ¬((!containsSubS (tissue.getD "") "NOT_COLLECTED" &&
        !(decide (tissue.getD "" = "nan") || decide (tissue.getD "" = ""))) = true) from by
          rw [hb2]; exact fun h => Bool.noConfusion h), if_neg h2]

/-- Claim C3, amended: the sequencing-status classifier is the
three-rule decision list evaluated top to bottom, with the rack rule
reading the raw (untrimmed) string length — `"Sequenced"` exactly when
the rack field's string form does not contain `"Not in TOL"` and its
length exceeds 5; otherwise `"Tissue Available"` exactly when the
tissue field does not contain `"NOT_COLLECTED"` and is neither `'nan'`
nor empty; otherwise `"Preserved Specimen"`; with the two concrete
examples of the spec. (The spec's "trimmed length" reading is refuted
by `C3_counterexample`.) -/
theorem C3_sequencing_decision_list :
    (∀ rack tissue : Option String,
      determine_sequencing_status rack tissue =
        if containsSubS (rack.getD "") "Not in TOL" = false ∧ 5 < (rack.getD "").length then
          "Sequenced"
        else if containsSubS (tissue.getD "") "NOT_COLLECTED" = false ∧
            tissue.getD "" ≠ "nan" ∧ tissue.getD "" ≠ "" then
          "Tissue Available"
        else "Preserved Specimen")
    ∧ determine_sequencing_status (some "Not in TOL") (some "NOT_COLLECTED") =
        "Preserved Specimen"
    ∧ determine_sequencing_status (some "RACK001A") none = "Sequenced" :=
  ⟨determine_status_eq, by decide, by decide⟩

/-- Claim C3, counterexample to the claim as stated: on a rack field of
`"AB    "` (six characters, trimmed length 2) with no tissue field, the
source classifies `"Sequenced"` (untrimmed length 6 > 5), while the
spec's classifier with trimmed length classifies
`"Preserved Specimen"`. -/
theorem C3_counterexample :
    determine_sequencing_status (some "AB    ") none = "Sequenced"
    ∧ determine_sequencing_status_spec (some "AB    ") none = "Preserved Specimen"
    ∧ (pyStripS "AB    ").length = 2 := by
  refine ⟨by decide, by decide, by decide⟩

theorem candidateValue_eq (v : Option String) :
    candidateValue v = if absentCandSpec v = true then none else some (pyStripS (v.getD "")) := by
  cases v with
  | none => rfl
  | some s =>
    by_cases h0 : s = ""
    · subst h0; rfl
    · by_cases h1 : pyStripS s = ""
      · simp [candidateValue, absentCandSpec, h0, h1, show pyLowerS "" = "" from rfl]
      · by_cases h2 : pyLowerS (pyStripS s) ∈ (["na", "nan", "none", ""] : List String)
        · have h2' : pyLowerS (pyStripS s) ∈ (["", "nan", "none", "na"] : List String) := by
            simp only [List.mem_cons, List.mem_singleton, List.not_mem_nil, or_false] at h2 ⊢
            tauto
          simp [candidateValue, absentCandSpec, h0, h1, h2, h2']
        · have h2' : pyLowerS (pyStripS s) ∉ (["", "nan", "none", "na"] : List String) := by
            simp only [List.mem_cons, List.mem_singleton, List.not_mem_nil, or_false] at h2 ⊢
            tauto
          simp [candidateValue, absentCandSpec, h0, h1, h2, h2']

theorem resolveFields_eq (vals : List (Option String)) :
    resolveFields vals = resolveFieldsSpec vals := by
  induction vals with
  | nil => rfl
  | cons v rest ih =>
    simp only [resolveFields, resolveFieldsSpec, candidateValue_eq]
    by_cases h : absentCandSpec v = true
    · simp [h, ih]
    · simp [h]

/-- Claim C6: the field resolver iterates the candidates in priority
order, treating a candidate as absent when it is null or its trimmed,
case-folded value is one of "", "nan", "none", "na", and returns the
first present candidate's trimmed value (first two conjuncts state the
source resolver equals the spec's resolver, for any candidate list and
for the fixed location order locality, verbatimLocality, municipality,
county, stateProvince); the spec's example resolves to "Loja". -/
theorem C6_location_resolver :
    (∀ vals : List (Option String), resolveFields vals = resolveFieldsSpec vals)
    ∧ (∀ r : LocRecord, get_collection_location r =
        resolveFieldsSpec [r.locality, r.verbatimLocality, r.municipality, r.county,
          r.stateProvince])
    ∧ get_collection_location ⟨some "", some "nan", none, some "Loja", none⟩ = some "Loja" :=
  ⟨resolveFields_eq,
   fun r => resolveFields_eq [r.locality, r.verbatimLocality, r.municipality, r.county,
     r.stateProvince],
   by decide⟩

/-- Claim C7, amended: `normalize_mimicry` maps NaN and exactly the
literal strings "", "nan", "NAN", "Unknown", "UNKNOWN" to the sentinel
"Unknown", and every other string to its trimmed Title-Case form; in
particular all-lowercase "unknown" still becomes "Unknown" through
Title-Casing, but the mixed-case "NaN" becomes "Nan". (The spec's
"case-insensitively equals nan" reading is refuted by
`C7_counterexample`.) -/
theorem C7_normalize_trait :
    normalize_mimicry none = "Unknown"
    ∧ (∀ s : String, s ∈ (["", "nan", "NAN", "Unknown", "UNKNOWN"] : List String) →
        normalize_mimicry (some s) = "Unknown")
    ∧ (∀ s : String, s ∉ (["", "nan", "NAN", "Unknown", "UNKNOWN"] : List String) →
        normalize_mimicry (some s) = pyTitleS (pyStripS s))
    ∧ normalize_mimicry (some "unknown") = "Unknown"
    ∧ normalize_mimicry (some "NaN") = "Nan" := by
  refine ⟨rfl, ?_, ?_, rfl, rfl⟩
  · intro s hs
    simp [normalize_mimicry, hs]
  · intro s hs
    simp [normalize_mimicry, hs]

/-- Claim C7, counterexample: "NaN" is case-insensitively equal to
"nan", yet `normalize_mimicry` maps it to "Nan", not to the sentinel
"Unknown". -/
theorem C7_counterexample :
    pyLowerS "NaN" = "nan"
    ∧ normalize_mimicry (some "NaN") = "Nan"
    ∧ ("Nan" : String) ≠ "Unknown" :=
  ⟨rfl, rfl, by decide⟩

theorem normalize_optional_none_iff (x : Option String) :
    normalize_optional x = none ↔
      (x = none ∨ x = some "None" ∨ x = some "nan" ∨ x = some "") := by
  cases x with
  | none => simp [normalize_optional]
  | some s =>
    by_cases h : s = "None" ∨ s = "nan" ∨ s = ""
    · simp [normalize_optional, h]
    · simp [normalize_optional, h]

theorem normalize_optional_some {x : Option String} {s : String}
    (h : normalize_optional x = some s) : s ∉ (["None", "nan", ""] : List String) := by
  cases x with
  | none => exact Option.noConfusion h
  | some t =>
    simp only [normalize_optional] at h
    by_cases hc : t = "None" ∨ t = "nan" ∨ t = ""
    · rw [if_pos hc] at h
      exact Option.noConfusion h
    · rw [if_neg hc] at h
      have := Option.some.inj h
      subst this
      simpa using hc

/-- Claim C8: the final null-normalization pass maps exactly the values
"None", "nan" and "" (and only those) of each optional field to absent
(first conjunct); after the pass no optional field of any record holds
one of those placeholder strings (second conjunct), and subspecies is
never the empty string (third conjunct). -/
theorem C8_final_null_normalization :
    (∀ x : Option String, normalize_optional x = none ↔
      (x = none ∨ x = some "None" ∨ x = some "nan" ∨ x = some ""))
    ∧ (∀ r : CanonicalOpt, ∀ f ∈ optionalFields (finalize_record r), ∀ s : String,
        f = some s → s ∉ (["None", "nan", ""] : List String))
    ∧ (∀ r : CanonicalOpt, (finalize_record r).subspecies ≠ some "") := by
  refine ⟨normalize_optional_none_iff, ?_, ?_⟩
  · intro r f hf s hfs
    simp only [optionalFields, finalize_record, List.mem_cons, List.mem_singleton,
      List.not_mem_nil, or_false] at hf
    rcases hf with h | h | h | h | h <;> (subst h; exact normalize_optional_some hfs)
  · intro r h
    have := normalize_optional_some (x := r.subspecies) h
    simp at this

/-- Claim C9 (implicit): every record emitted from the Sanger batch has
a non-empty id; a row is dropped exactly when a coordinate is missing
or unparseable or its normalized id is empty (second conjunct), and a
row whose id cell is the NaN string is dropped even with valid
coordinates (third conjunct). -/
theorem C9_sanger_ids_nonempty :
    (∀ rows : List SangerRow, ∀ rec ∈ load_sanger_rows rows, rec.id ≠ "")
    ∧ (∀ row : SangerRow, sanger_process_row row = none ↔
        (row.lat.bind pyFloat? = none ∨ row.lng.bind pyFloat? = none ∨
          clean_id (sanger_target_id row) = ""))
    ∧ sanger_process_row ⟨some "nan", none, some "1.5", some "2.5"⟩ = none := by
  refine ⟨?_, ?_, by decide⟩
  · intro rows rec hrec
    obtain ⟨row, hmem, hrow⟩ := List.mem_filterMap.mp hrec
    simp only [sanger_process_row] at hrow
    cases hlat : row.lat.bind pyFloat? with
    | none => simp only [hlat] at hrow; exact Option.noConfusion hrow
    | some la =>
      cases hlng : row.lng.bind pyFloat? with
      | none => simp only [hlat, hlng] at hrow; exact Option.noConfusion hrow
      | some ln =>
        simp only [hlat, hlng] at hrow
        by_cases hid : clean_id (sanger_target_id row) = ""
        · rw [if_pos hid] at hrow
          exact Option.noConfusion hrow
        · rw [if_neg hid] at hrow
          have := Option.some.inj hrow
          subst this
          exact hid
  · intro row
    simp only [sanger_process_row]
    cases hlat : row.lat.bind pyFloat? with
    | none => simp [hlat]
    | some la =>
      cases hlng : row.lng.bind pyFloat? with
      | none => simp [hlng]
      | some ln =>
        by_cases hid : clean_id (sanger_target_id row) = ""
        · simp [hid]
        · simp [hid]

theorem insertIfAbsent_mem {t : MimTable} {k : MimKey} {v : String × String}
    {kv : MimKey × (String × String)} (h : kv ∈ insertIfAbsent t k v) :
    kv ∈ t ∨ kv = (k, v) := by
  unfold insertIfAbsent at h
  cases hf : tableFind t k with
  | some _ => rw [hf] at h; exact Or.inl h
  | none =>
    rw [hf] at h
    rcases List.mem_append.mp h with h | h
    · exact Or.inl h
    · right
      simpa using h

theorem tableFind_mem {t : MimTable} {k : MimKey} {v : String × String}
    (h : tableFind t k = some v) : (k, v) ∈ t := by
  induction t with
  | nil => exact Option.noConfusion h
  | cons e r ih =>
    obtain ⟨ke, ve⟩ := e
    simp only [tableFind] at h
    split at h
    · next heq =>
      obtain rfl := Option.some.inj h
      rw [heq]
      simp
    · exact List.mem_cons_of_mem _ (ih h)

theorem build_entries_normalized (rows : List DoreRow) :
    ∀ (t : MimTable),
      (∀ kv ∈ t, (∃ v, kv.2.1 = normalize_mimicry v) ∧ (∃ w, kv.2.2 = normalize_mimicry w)) →
      ∀ kv ∈ rows.foldl buildMimStep t,
        (∃ v, kv.2.1 = normalize_mimicry v) ∧ (∃ w, kv.2.2 = normalize_mimicry w) := by
  induction rows with
  | nil => intro t ht kv hkv; exact ht kv hkv
  | cons r rs ih =>
    intro t ht kv hkv
    rw [List.foldl_cons] at hkv
    refine ih (buildMimStep t r) ?_ kv hkv
    intro kv' hkv'
    unfold buildMimStep at hkv'
    cases hs : cleanDoreSubspecies r.subspecies with
    | none =>
      simp only [hs] at hkv'
      rcases insertIfAbsent_mem hkv' with h | h
      · exact ht kv' h
      · subst h
        exact ⟨⟨r.mMim, rfl⟩, ⟨r.fMim, rfl⟩⟩
    | some s =>
      simp only [hs] at hkv'
      rcases insertIfAbsent_mem hkv' with h | h
      · rcases insertIfAbsent_mem h with h2 | h2
        · exact ht kv' h2
        · subst h2
          exact ⟨⟨r.mMim, rfl⟩, ⟨r.fMim, rfl⟩⟩
      · subst h
        exact ⟨⟨r.mMim, rfl⟩, ⟨r.fMim, rfl⟩⟩

theorem lookup_result_cases (t : MimTable) (name : String) (ssp : Option String) :
    lookup_mimicry t name ssp = ("Unknown", "Unknown") ∨
      ∃ k, tableFind t k = some (lookup_mimicry t name ssp) := by
  simp only [lookup_mimicry]
  by_cases hn : name = ""
  · simp [hn]
  · simp only [hn, if_false]
    rcases ssp with _ | s
    · dsimp only
      cases hfk : tableFind t (pyStripS (pyLowerS name), none) with
      | some v => right; exact ⟨_, hfk⟩
      | none => left; simp [hfk]
    · dsimp only
      by_cases hs : s = ""
      · simp only [hs, if_pos rfl, reduceIte]
        cases hfk : tableFind t (pyStripS (pyLowerS name), none) with
        | some v => right; exact ⟨_, hfk⟩
        | none => left; simp [hfk]
      · simp only [hs, if_false]
        cases hfull : tableFind t (pyStripS (pyLowerS name), some (pyStripS (pyLowerS s))) with
        | some v => right; exact ⟨_, hfull⟩
        | none =>
          simp only [hfull]
          cases hfk : tableFind t (pyStripS (pyLowerS name), none) with
          | some v => right; exact ⟨_, hfk⟩
          | none => left; simp [hfk]

/-- Claim C10 (implicit): every value stored in the mimicry lookup
table built from any reference rows is a pair of `normalize_mimicry`
outputs, and therefore `lookup_mimicry` on that table always returns
such a pair — on a full-key hit, a species-key hit, or a miss (the
miss returns the pair of `normalize_mimicry` applied to NaN). -/
theorem C10_lookup_values_normalized :
    (∀ (rows : List DoreRow) (kv : MimKey × (String × String)),
      kv ∈ build_mimicry_lookup rows →
        (∃ v, kv.2.1 = normalize_mimicry v) ∧ (∃ w, kv.2.2 = normalize_mimicry w))
    ∧ (∀ (rows : List DoreRow) (name : String) (ssp : Option String),
      ∃ v w, lookup_mimicry (build_mimicry_lookup rows) name ssp =
        (normalize_mimicry v, normalize_mimicry w)) := by
  have hbuild : ∀ (rows : List DoreRow) (kv : MimKey × (String × String)),
      kv ∈ build_mimicry_lookup rows →
        (∃ v, kv.2.1 = normalize_mimicry v) ∧ (∃ w, kv.2.2 = normalize_mimicry w) := by
    intro rows kv hkv
    exact build_entries_normalized rows [] (by simp) kv hkv
  refine ⟨hbuild, ?_⟩
  intro rows name ssp
  rcases lookup_result_cases (build_mimicry_lookup rows) name ssp with h | ⟨k, hk⟩
  · exact ⟨none, none, h⟩
  · obtain ⟨⟨v, hv⟩, ⟨w, hw⟩⟩ := hbuild rows (k, lookup_mimicry (build_mimicry_lookup rows) name ssp)
      (tableFind_mem hk)
    exact ⟨v, w, Prod.ext hv hw⟩

theorem process_row_coords {row : GbifRow} {rec : GbifRec}
    (h : process_occurrence_row row = some rec) :
    ∃ a b : String, row.decimalLatitude = some a ∧ pyFloat? a = some rec.lat ∧
      row.decimalLongitude = some b ∧ pyFloat? b = some rec.lng := by
  simp only [process_occurrence_row] at h
  by_cases hempty : (row.decimalLatitude.getD "" = "" ∨ row.decimalLongitude.getD "" = "")
  · rw [if_pos (by simpa using hempty)] at h
    exact Option.noConfusion h
  · rw [if_neg (by simpa using hempty)] at h
    push_neg at hempty
    obtain ⟨h1, h2⟩ := hempty
    cases hla : pyFloat? (row.decimalLatitude.getD "") with
    | none => simp only [hla] at h; exact Option.noConfusion h
    | some la =>
      cases hlng : pyFloat? (row.decimalLongitude.getD "") with
      | none => simp only [hla, hlng] at h; exact Option.noConfusion h
      | some ln =>
        simp only [hla, hlng] at h
        have hlat : rec.lat = la ∧ rec.lng = ln := by
          split at h
          · exact Option.noConfusion h
          · obtain rfl := Option.some.inj h
            exact ⟨rfl, rfl⟩
        obtain ⟨hrl, hrg⟩ := hlat
        refine ⟨row.decimalLatitude.getD "", row.decimalLongitude.getD "", ?_, ?_, ?_, ?_⟩
        · cases hc : row.decimalLatitude with
          | none => rw [hc] at h1; exact absurd rfl h1
          | some a => rfl
        · rw [hrl]; exact hla
        · cases hc : row.decimalLongitude with
          | none => rw [hc] at h2; exact absurd rfl h2
          | some b => rfl
        · rw [hrg]; exact hlng

theorem process_row_drops {row : GbifRow}
    (h : row.decimalLatitude.bind pyFloat? = none ∨
      row.decimalLongitude.bind pyFloat? = none) :
    process_occurrence_row row = none := by
  simp only [process_occurrence_row]
  by_cases hempty : (row.decimalLatitude.getD "" = "" ∨ row.decimalLongitude.getD "" = "")
  · rw [if_pos (by simpa using hempty)]
  · rw [if_neg (by simpa using hempty)]
    push_neg at hempty
    obtain ⟨h1, h2⟩ := hempty
    have hlatb : row.decimalLatitude.bind pyFloat? =
        pyFloat? (row.decimalLatitude.getD "") := by
      cases hc : row.decimalLatitude with
      | none => rw [hc] at h1; exact absurd rfl h1
      | some a => rfl
    have hlngb : row.decimalLongitude.bind pyFloat? =
        pyFloat? (row.decimalLongitude.getD "") := by
      cases hc : row.decimalLongitude with
      | none => rw [hc] at h2; exact absurd rfl h2
      | some b => rfl
    rw [hlatb, hlngb] at h
    cases hla : pyFloat? (row.decimalLatitude.getD "") with
    | none => rfl
    | some la =>
      cases hln : pyFloat? (row.decimalLongitude.getD "") with
      | none => rfl
      | some ln =>
        rw [hla, hln] at h
        rcases h with h | h <;> exact Option.noConfusion h

theorem local_coords_some (r : LocalRow) (la ln : ℚ) :
    local_row_coords r = some (la, ln) ↔
      r.latitude.bind pyFloat? = some la ∧ r.longitude.bind pyFloat? = some ln := by
  simp only [local_row_coords]
  cases hla : r.latitude.bind pyFloat? with
  | none => simp
  | some a =>
    cases hln : r.longitude.bind pyFloat? with
    | none => simp
    | some b => simp [Prod.ext_iff, and_comm]

theorem local_coords_none (r : LocalRow) :
    local_row_coords r = none ↔
      (r.latitude.bind pyFloat? = none ∨ r.longitude.bind pyFloat? = none) := by
  simp only [local_row_coords]
  cases hla : r.latitude.bind pyFloat? with
  | none => simp
  | some a =>
    cases hln : r.longitude.bind pyFloat? with
    | none => simp
    | some b => simp

theorem sanger_row_coords {r : SangerRow} {rec : SangerRec}
    (h : sanger_process_row r = some rec) :
    r.lat.bind pyFloat? = some rec.lat ∧ r.lng.bind pyFloat? = some rec.lng := by
  simp only [sanger_process_row] at h
  cases hlat : r.lat.bind pyFloat? with
  | none => simp only [hlat] at h; exact Option.noConfusion h
  | some la =>
    cases hlng : r.lng.bind pyFloat? with
    | none => simp only [hlat, hlng] at h; exact Option.noConfusion h
    | some ln =>
      simp only [hlat, hlng] at h
      by_cases hid : clean_id (sanger_target_id r) = ""
      · rw [if_pos hid] at h; exact Option.noConfusion h
      · rw [if_neg hid] at h
        obtain rfl := Option.some.inj h
        exact ⟨rfl, rfl⟩

theorem sanger_row_drops {r : SangerRow}
    (h : r.lat.bind pyFloat? = none ∨ r.lng.bind pyFloat? = none) :
    sanger_process_row r = none := by
  simp only [sanger_process_row]
  cases hlat : r.lat.bind pyFloat? with
  | none => cases hlng : r.lng.bind pyFloat? <;> rfl
  | some la =>
    cases hlng : r.lng.bind pyFloat? with
    | none => rfl
    | some ln =>
      rw [hlat, hlng] at h
      rcases h with h | h <;> exact Option.noConfusion h

/-- Claim C4, amended: across the three batches of the reconciled
output, every emitted record's lat and lng come from successful numeric
parsing of the source row's coordinate cells, and a row whose latitude
or longitude is missing or non-numeric is excluded — conjuncts 1-2 for
the GBIF occurrence loop, 3-4 for the Dore local loader, 5-6 for the
Sanger loader; but no range check is applied: a row with latitude "200"
is kept with lat = 200, outside [-90, 90], by the local loader
(conjunct 7) and the GBIF loop (conjunct 8) alike. -/
theorem C4_coords_parsed_unchecked :
    (∀ rows : List GbifRow, ∀ rec ∈ process_occurrence_rows rows,
      ∃ row ∈ rows, ∃ a b : String, row.decimalLatitude = some a ∧
        pyFloat? a = some rec.lat ∧ row.decimalLongitude = some b ∧ pyFloat? b = some rec.lng)
    ∧ (∀ row : GbifRow,
        row.decimalLatitude.bind pyFloat? = none ∨ row.decimalLongitude.bind pyFloat? = none →
        process_occurrence_row row = none)
    ∧ (∀ (r : LocalRow) (la ln : ℚ), local_row_coords r = some (la, ln) ↔
        r.latitude.bind pyFloat? = some la ∧ r.longitude.bind pyFloat? = some ln)
    ∧ (∀ r : LocalRow, local_row_coords r = none ↔
        (r.latitude.bind pyFloat? = none ∨ r.longitude.bind pyFloat? = none))
    ∧ (∀ rows : List SangerRow, ∀ rec ∈ load_sanger_rows rows,
        ∃ row ∈ rows, row.lat.bind pyFloat? = some rec.lat ∧ row.lng.bind pyFloat? = some rec.lng)
    ∧ (∀ row : SangerRow,
        row.lat.bind pyFloat? = none ∨ row.lng.bind pyFloat? = none →
        sanger_process_row row = none)
    ∧ (∃ p : ℚ × ℚ, load_local_coords [⟨some "200", some "0"⟩] = [p] ∧
        p.1 = 200 ∧ ¬(p.1 ≤ 90))
    ∧ (∃ rec : GbifRec,
        process_occurrence_rows
          [⟨some "200", some "0", some "Aeria", some "elara", none, none, none⟩] = [rec] ∧
        rec.lat = 200 ∧ ¬(rec.lat ≤ 90)) := by
  refine ⟨?_, ?_, local_coords_some, local_coords_none, ?_, ?_, ?_, ?_⟩
  · intro rows rec hrec
    obtain ⟨row, hmem, hrow⟩ := List.mem_filterMap.mp hrec
    exact ⟨row, hmem, process_row_coords hrow⟩
  · intro row h
    exact process_row_drops h
  · intro rows rec hrec
    obtain ⟨row, hmem, hrow⟩ := List.mem_filterMap.mp hrec
    exact ⟨row, hmem, sanger_row_coords hrow⟩
  · intro row h
    exact sanger_row_drops h
  · refine ⟨((1 : ℚ) * ((natOfDigits ['2', '0', '0'] : ℕ) : ℚ),
      (1 : ℚ) * ((natOfDigits ['0'] : ℕ) : ℚ)), rfl, ?_, ?_⟩
    · show (1 : ℚ) * ((natOfDigits ['2', '0', '0'] : ℕ) : ℚ) = 200
      rw [show natOfDigits ['2', '0', '0'] = 200 from by decide]
      norm_num
    · show ¬((1 : ℚ) * ((natOfDigits ['2', '0', '0'] : ℕ) : ℚ) ≤ 90)
      rw [show natOfDigits ['2', '0', '0'] = 200 from by decide]
      norm_num
  · refine ⟨⟨"Aeria elara", "Aeria", "elara", none,
      (1 : ℚ) * ((natOfDigits ['2', '0', '0'] : ℕ) : ℚ),
      (1 : ℚ) * ((natOfDigits ['0'] : ℕ) : ℚ)⟩, rfl, ?_, ?_⟩
    · show (1 : ℚ) * ((natOfDigits ['2', '0', '0'] : ℕ) : ℚ) = 200
      rw [show natOfDigits ['2', '0', '0'] = 200 from by decide]
      norm_num
    · show ¬((1 : ℚ) * ((natOfDigits ['2', '0', '0'] : ℕ) : ℚ) ≤ 90)
      rw [show natOfDigits ['2', '0', '0'] = 200 from by decide]
      norm_num

/-- Claim C4, counterexample: the reconciled output of the single GBIF
row with decimalLatitude "200" violates the claimed invariant that
every record has lat in [-90, 90] and lng in [-180, 180]. -/
theorem C4_counterexample :
    ¬(∀ rec ∈ process_occurrence_rows
        [⟨some "200", some "0", some "Aeria", some "elara", none, none, none⟩],
      ((-90 : ℚ) ≤ rec.lat ∧ rec.lat ≤ 90) ∧ ((-180 : ℚ) ≤ rec.lng ∧ rec.lng ≤ 180)) := by
  intro hall
  have hlist : process_occurrence_rows
      [⟨some "200", some "0", some "Aeria", some "elara", none, none, none⟩] =
      [⟨"Aeria elara", "Aeria", "elara", none,
        (1 : ℚ) * ((natOfDigits ['2', '0', '0'] : ℕ) : ℚ),
        (1 : ℚ) * ((natOfDigits ['0'] : ℕ) : ℚ)⟩] := rfl
  have hmem : (⟨"Aeria elara", "Aeria", "elara", none,
      (1 : ℚ) * ((natOfDigits ['2', '0', '0'] : ℕ) : ℚ),
      (1 : ℚ) * ((natOfDigits ['0'] : ℕ) : ℚ)⟩ : GbifRec) ∈ process_occurrence_rows
      [⟨some "200", some "0", some "Aeria", some "elara", none, none, none⟩] := by
    rw [hlist]
    exact List.mem_singleton.mpr rfl
  have hb := (hall _ hmem).1.2
  rw [show natOfDigits ['2', '0', '0'] = 200 from by decide] at hb
  norm_num at hb
